import Mathlib

/-!
# Verification of the quivr linkage engine (`quivr/linkage.py`)

Shallow embedding of the linkage module: `ArrowArrayIndex`, `Linkage`,
`MultiKeyLinkage` and the helper `_build_struct_array`, together with the
fragment of the pyarrow scalar/array model that the module relies on
(typed scalars compared by (type, content), arrays with null tracking,
`pa.scalar` inference and typed struct-scalar construction), and the
fragment of the `Table` collaborator (`take`, `empty`, `__len__`).

Python exceptions are modelled by `PyErr` values carrying the exception
class and the formatted message string; functions that can raise return
`Except PyErr _`.
-/

/-! ## The pyarrow value model -/

/-- Logical primitive types of pyarrow values used as linkage keys.
Equality of scalars is (type, content): values of different logical
types are never equal even when numerically coincident. -/
inductive PrimType where
  | int32
  | int64
  | str
  | timestamp
deriving DecidableEq, Repr

/-- A primitive typed scalar: the constructor is the type tag. -/
inductive Prim where
  | int32 (v : Int)
  | int64 (v : Int)
  | str (s : String)
  | timestamp (v : Int)
deriving DecidableEq, Repr

/-- The logical type of a primitive scalar. -/
def Prim.dtype : Prim → PrimType
  | .int32 _ => .int32
  | .int64 _ => .int64
  | .str _ => .str
  | .timestamp _ => .timestamp

/-- A pyarrow logical type: primitive, or a struct of named primitive fields
(the composite type synthesized by `MultiKeyLinkage`). -/
inductive DType where
  | prim (t : PrimType)
  | struct (fields : List (String × PrimType))
deriving DecidableEq, Repr

/-- A pyarrow scalar (`pa.Scalar`): primitive, or a struct scalar with named
primitive fields in a significant order. -/
inductive Scalar where
  | prim (p : Prim)
  | struct (fields : List (String × Prim))
deriving DecidableEq, Repr

/-- The logical type of a scalar. -/
def Scalar.dtype : Scalar → DType
  | .prim p => .prim p.dtype
  | .struct fs => .struct (fs.map (fun f => (f.1, f.2.dtype)))

/-- A pyarrow array (`pa.Array`): a logical type plus a sequence of slots,
`none` being a null slot. -/
structure PArray where
  dtype : DType
  items : List (Option Scalar)
deriving DecidableEq, Repr

/-- `len(array)` (nulls counted). -/
def PArray.length (a : PArray) : Nat := a.items.length

/-- `array.null_count`. -/
def PArray.nullCount (a : PArray) : Nat :=
  (a.items.filter (fun o => o.isNone)).length

/-- The non-null values of the array in slot order; when `nullCount = 0`
this is exactly the sequence `array[0], ..., array[len-1]`. -/
def PArray.scalars (a : PArray) : List Scalar := a.items.filterMap id

/-- A Python exception reaching the caller: the exception class together
with the formatted message (for `KeyError`, the missing key). -/
inductive PyErr where
  | valueError (msg : String)
  | typeError (msg : String)
  | keyError (key : String)
deriving DecidableEq, Repr

/-- A raw argument as accepted by `select_left` / `select_right` / `select`
and by `key`: either already a `pa.Scalar`, or a plain Python value that
pyarrow will coerce. -/
inductive PyVal where
  | scalar (s : Scalar)
  | pyInt (v : Int)
  | pyStr (s : String)
deriving DecidableEq, Repr

/-- `pa.scalar(val)` with no explicit type: generic type inference.  A value
that is already a `pa.Scalar` is returned unchanged (the `isinstance`
branch in `select_left` and friends); a Python int infers `int64`; a
Python str infers `string`. -/
def paScalarInfer : PyVal → Scalar
  | .scalar s => s
  | .pyInt v => .prim (.int64 v)
  | .pyStr s => .prim (.str s)

/-- Conversion of one raw value to a required primitive field type, as
performed by `pa.scalar(mapping, type=struct_type)` on each field:
`none` models a pyarrow `ArrowInvalid` conversion failure. -/
def castToPrim (t : PrimType) : PyVal → Option Prim
  | .pyInt v =>
    match t with
    | .int32 => some (.int32 v)
    | .int64 => some (.int64 v)
    | .timestamp => some (.timestamp v)
    | .str => none
  | .pyStr s =>
    match t with
    | .str => some (.str s)
    | _ => none
  | .scalar (.prim p) => if p.dtype = t then some p else none
  | .scalar (.struct _) => none

/-! ## The Table collaborator

`quivr.tables.Table` is consumed through `len`, `take` and `empty` only.
A table is parametrized by its row type (standing for the schema); `take`
models `pyarrow.Table.take` on in-range indices. -/

structure Table (α : Type) where
  rows : List α
deriving DecidableEq, Repr

/-- `len(table)`. -/
def Table.length {α : Type} (t : Table α) : Nat := t.rows.length

/-- `table.take(indices)`: the given rows in the given order.  (pyarrow
raises on an out-of-range index; the linkage only ever passes in-range
positions, where this model is exact.) -/
def Table.take {α : Type} (t : Table α) (idxs : List Nat) : Table α :=
  ⟨idxs.filterMap (fun i => t.rows[i]?)⟩

/-- `table.empty()`: the canonical zero-row instance with the same schema. -/
def Table.empty {α : Type} (_t : Table α) : Table α := ⟨[]⟩

/-! ## ArrowArrayIndex -/

/-- One step of the index-building loop body for the dict
`in_progress_index`: if `val` is already a key, append the position,
otherwise add a new entry `val -> [i]` (Python dicts preserve insertion
order, so the association list is kept in first-occurrence order). -/
def insertPos (m : List (Scalar × List Nat)) (v : Scalar) (i : Nat) :
    List (Scalar × List Nat) :=
  if m.any (fun p => decide (p.1 = v)) then
    m.map (fun p => if p.1 = v then (p.1, p.2 ++ [i]) else p)
  else
    m ++ [(v, [i])]

/-- `self.values.add(val)`: the Python set modelled as a duplicate-free
list in insertion order. -/
def insertVal (vs : List Scalar) (v : Scalar) : List Scalar :=
  if v ∈ vs then vs else vs ++ [v]

/-- The loop `for i in range(len(array))` of `ArrowArrayIndex.__init__`,
carrying the in-progress dict, the value set, and the running position. -/
def buildLoop (m : List (Scalar × List Nat)) (vs : List Scalar) (i : Nat) :
    List Scalar → List (Scalar × List Nat) × List Scalar
  | [] => (m, vs)
  | v :: rest => buildLoop (insertPos m v i) (insertVal vs v) (i + 1) rest

/-- An index over the values in a pyarrow array: `index` is the dict from
scalar value to the array of positions, `values` the set of distinct
values. -/
structure ArrowArrayIndex where
  index : List (Scalar × List Nat)
  values : List Scalar
deriving DecidableEq, Repr

/-- The successfully built index over a null-free array's values. -/
def ArrowArrayIndex.ofScalars (l : List Scalar) : ArrowArrayIndex :=
  ⟨(buildLoop [] [] 0 l).1, (buildLoop [] [] 0 l).2⟩

/-- `ArrowArrayIndex.__init__`: raises `ValueError` if the array has any
null, otherwise one forward pass over all elements. -/
def ArrowArrayIndex.build (array : PArray) : Except PyErr ArrowArrayIndex :=
  if array.nullCount > 0 then
    .error (.valueError "Array must not contain null values to be an index")
  else
    .ok (.ofScalars array.scalars)

/-- Dict lookup `self.index.get(val, None)`. -/
def lookupIdx (m : List (Scalar × List Nat)) (v : Scalar) : Option (List Nat) :=
  (m.find? (fun p => decide (p.1 = v))).map (fun p => p.2)

/-- `ArrowArrayIndex.get`. -/
def ArrowArrayIndex.get (idx : ArrowArrayIndex) (val : Scalar) : Option (List Nat) :=
  lookupIdx idx.index val

/-! ## Linkage -/

/-- A `Linkage` is a mapping of rows across two tables, with an eagerly
built `ArrowArrayIndex` per side and the union of the two value sets. -/
structure Linkage (α β : Type) where
  left_table : Table α
  right_table : Table β
  left_index : ArrowArrayIndex
  right_index : ArrowArrayIndex
  all_unique_values : List Scalar
deriving DecidableEq

/-- Python set union `left.values.union(right.values)`, as a duplicate-free
list (order is an implementation detail, as in CPython sets). -/
def setUnion (a b : List Scalar) : List Scalar :=
  a ++ b.filter (fun v => decide (v ∉ a))

/-- `Linkage.__init__`: null checks on both key arrays, then length checks
against the tables, then the two index builds and the value-set union. -/
def Linkage.init {α β : Type} (left_table : Table α) (right_table : Table β)
    (left_keys right_keys : PArray) : Except PyErr (Linkage α β) :=
  if left_keys.nullCount > 0 then
    .error (.valueError "Left keys must not contain null values")
  else if right_keys.nullCount > 0 then
    .error (.valueError "Right keys must not contain null values")
  else if left_keys.length ≠ left_table.length then
    .error (.valueError "Left keys must have the same length as the left table")
  else if right_keys.length ≠ right_table.length then
    .error (.valueError "Right keys must have the same length as the right table")
  else do
    let li ← ArrowArrayIndex.build left_keys
    let ri ← ArrowArrayIndex.build right_keys
    .ok { left_table := left_table, right_table := right_table,
          left_index := li, right_index := ri,
          all_unique_values := setUnion li.values ri.values }

/-- `Linkage._select_left`. -/
def Linkage.selectLeftScalar {α β : Type} (l : Linkage α β) (val : Scalar) : Table α :=
  match l.left_index.get val with
  | none => l.left_table.empty
  | some idxs => l.left_table.take idxs

/-- `Linkage._select_right`. -/
def Linkage.selectRightScalar {α β : Type} (l : Linkage α β) (val : Scalar) : Table β :=
  match l.right_index.get val with
  | none => l.right_table.empty
  | some idxs => l.right_table.take idxs

/-- `Linkage.select_left`: a non-scalar argument is first coerced with
`pa.scalar(val)`. -/
def Linkage.select_left {α β : Type} (l : Linkage α β) (val : PyVal) : Table α :=
  l.selectLeftScalar (paScalarInfer val)

/-- `Linkage.select_right`. -/
def Linkage.select_right {α β : Type} (l : Linkage α β) (val : PyVal) : Table β :=
  l.selectRightScalar (paScalarInfer val)

/-- `Linkage.select` (also `__getitem__`). -/
def Linkage.select {α β : Type} (l : Linkage α β) (val : PyVal) : Table α × Table β :=
  (l.selectLeftScalar (paScalarInfer val), l.selectRightScalar (paScalarInfer val))

/-- `Linkage.iterate` (also `__iter__`): one tuple per unique value, in the
set's iteration order. -/
def Linkage.iterate {α β : Type} (l : Linkage α β) : List (Scalar × Table α × Table β) :=
  l.all_unique_values.map (fun v => (v, l.selectLeftScalar v, l.selectRightScalar v))

/-- `Linkage.__len__`: the number of unique values in the linkage. -/
def Linkage.len {α β : Type} (l : Linkage α β) : Nat :=
  l.all_unique_values.length

/-! ## MultiKeyLinkage -/

/-- A key column supplied to `MultiKeyLinkage`: a primitive-typed pyarrow
array (type plus nullable slots). -/
structure PrimArray where
  dtype : PrimType
  items : List (Option Prim)
deriving DecidableEq, Repr

/-- `len(array)`. -/
def PrimArray.length (a : PrimArray) : Nat := a.items.length

/-- `array.null_count`. -/
def PrimArray.nullCount (a : PrimArray) : Nat :=
  (a.items.filter (fun o => o.isNone)).length

/-- The non-null values in slot order (equals the value sequence when
`nullCount = 0`). -/
def PrimArray.prims (a : PrimArray) : List Prim := a.items.filterMap id

/-- Python dict lookup over an ordered name-keyed association list
(first entry with the given name wins, as in a dict, where names are
unique anyway). -/
def alistFind {γ : Type} (l : List (String × γ)) (k : String) : Option γ :=
  (l.find? (fun kv => decide (kv.1 = k))).map (fun kv => kv.2)

/-- Dict lookup `keys[k]` over the ordered name-to-array mapping. -/
def lookupArr (l : List (String × PrimArray)) (k : String) : Option PrimArray :=
  alistFind l k

/-- Name list of an ordered key mapping, in iteration order. -/
def keyNames (l : List (String × PrimArray)) : List String := l.map (fun kv => kv.1)

/-- `set(a) == set(b)` on name lists. -/
def sameNameSet (a b : List String) : Bool :=
  a.all (fun x => decide (x ∈ b)) && b.all (fun x => decide (x ∈ a))

/-- Printed form of a primitive type, as pyarrow renders it inside the
type-mismatch message. -/
def PrimType.render : PrimType → String
  | .int32 => "int32"
  | .int64 => "int64"
  | .str => "string"
  | .timestamp => "timestamp[s]"

/-- The per-key validation loop `for k in left_keys.keys()` of
`MultiKeyLinkage.__init__`: right-side lookup, type equality, null checks,
length checks, accumulating `self.dtypes` in left iteration order.
(The `isinstance(..., pa.Array)` `TypeError`s cannot arise in this typed
embedding.)  The `keyError` branch models Python's `KeyError` on
`right_keys[k]`; it is unreachable once the name-set check has passed. -/
def checkKeysLoop (ltLen rtLen : Nat) (right_keys : List (String × PrimArray)) :
    List (String × PrimArray) → Except PyErr (List (String × PrimType))
  | [] => .ok []
  | (k, la) :: rest =>
    match lookupArr right_keys k with
    | none => .error (.keyError k)
    | some ra =>
      if la.dtype ≠ ra.dtype then
        .error (.typeError ("Left key " ++ k ++ " and right key " ++ k ++
          " must have the same type; left=" ++ la.dtype.render ++
          ", right=" ++ ra.dtype.render))
      else if la.nullCount > 0 then
        .error (.valueError ("Left key " ++ k ++ " must not contain null values"))
      else if ra.nullCount > 0 then
        .error (.valueError ("Right key " ++ k ++ " must not contain null values"))
      else if la.length ≠ ltLen then
        .error (.valueError ("Left key " ++ k ++ " must have the same length as the left table"))
      else if ra.length ≠ rtLen then
        .error (.valueError ("Right key " ++ k ++ " must have the same length as the right table"))
      else
        (checkKeysLoop ltLen rtLen right_keys rest).map (fun ds => (k, la.dtype) :: ds)

/-- Row `i` of the composite array: the per-field values at row `i` across
all named key arrays, zipped into one field list; `none` if any slot is
missing or null. -/
def structRowFields (keys : List (String × PrimArray)) (i : Nat) :
    Option (List (String × Prim)) :=
  keys.mapM (fun kv => (kv.2.items.getD i none).map (fun p => (kv.1, p)))

/-- `_build_struct_array` via `pa.StructArray.from_arrays(arrays, fields)`:
fields in the mapping's own iteration order; on the null-free equal-length
arrays the linkage feeds it, row `i` is the struct scalar of the per-field
values at `i`. -/
def buildStructArray (keys : List (String × PrimArray)) : PArray :=
  { dtype := .struct (keys.map (fun kv => (kv.1, kv.2.dtype))),
    items := (List.range (match keys with
        | [] => 0
        | kv :: _ => kv.2.items.length)).map
      (fun i => (structRowFields keys i).map Scalar.struct) }

/-- A `MultiKeyLinkage` is a `Linkage` over synthesized composite arrays,
remembering the per-field types (`self.dtypes`, in left-mapping iteration
order) and the composite scalar type (`self.scalar_type`). -/
structure MultiKeyLinkage (α β : Type) extends Linkage α β where
  dtypes : List (String × PrimType)
  scalar_type : DType
deriving DecidableEq

/-- `MultiKeyLinkage.__init__`: name-set equality, non-emptiness, the
per-key validation loop, then synthesis of both composite arrays and
delegation to `Linkage.__init__`. -/
def MultiKeyLinkage.init {α β : Type} (left_table : Table α) (right_table : Table β)
    (left_keys right_keys : List (String × PrimArray)) :
    Except PyErr (MultiKeyLinkage α β) :=
  if ¬ sameNameSet (keyNames left_keys) (keyNames right_keys) then
    .error (.valueError "Left and right key dictionaries must have the same keys")
  else if left_keys.length = 0 then
    .error (.valueError "Left and right key dictionaries must not be empty")
  else do
    let dtypes ← checkKeysLoop left_table.length right_table.length right_keys left_keys
    let left_structarray := buildStructArray left_keys
    let right_structarray := buildStructArray right_keys
    let base ← Linkage.init left_table right_table left_structarray right_structarray
    .ok { toLinkage := base, dtypes := dtypes, scalar_type := .struct dtypes }

/-- `self.dtypes.keys()` as rendered inside the `key()` error message. -/
def renderNames (l : List (String × PrimType)) : String :=
  String.intercalate ", " (l.map (fun kv => kv.1))

/-- One field of `pa.scalar(kwargs, type=struct_type)`: fetch the value
for the field's name and convert it to the field's type.  The `keyError`
branch is unreachable once the name sets agree. -/
def structFieldOf (kwargs : List (String × PyVal)) (ft : String × PrimType) :
    Except PyErr (String × Prim) :=
  match alistFind kwargs ft.1 with
  | none => .error (.keyError ft.1)
  | some v =>
    match castToPrim ft.2 v with
    | none => .error (.valueError "invalid value for composite key field")
    | some p => .ok (ft.1, p)

/-- `pa.scalar(kwargs, type=struct_type)`: one field per struct-type field,
in the struct type's field order, each value converted to the field type. -/
def paScalarStructTyped (kwargs : List (String × PyVal))
    (fields : List (String × PrimType)) : Except PyErr Scalar :=
  (fields.mapM (structFieldOf kwargs)).map Scalar.struct

/-- `MultiKeyLinkage.key(**kwargs)`: name-set check against the configured
keys, then `pa.scalar(kwargs, type=self.scalar_type)`.  (`scalar_type` is
always a struct type; the `typeError` branch is unreachable.) -/
def MultiKeyLinkage.key {α β : Type} (m : MultiKeyLinkage α β)
    (kwargs : List (String × PyVal)) : Except PyErr Scalar :=
  if ¬ sameNameSet (kwargs.map (fun kv => kv.1)) (m.dtypes.map (fun kv => kv.1)) then
    .error (.valueError ("Keys must match the linkage keys (" ++ renderNames m.dtypes ++ ")"))
  else
    match m.scalar_type with
    | .struct fields => paScalarStructTyped kwargs fields
    | .prim _ => .error (.typeError "scalar type is not a struct type")

/-! ## Characterization of the index build -/

/-- The positions of `v` in `l`, counting from `i`, in ascending order. -/
def occFrom (i : Nat) (v : Scalar) : List Scalar → List Nat
  | [] => []
  | w :: rest => if w = v then i :: occFrom (i + 1) v rest else occFrom (i + 1) v rest

/-- The ascending list of all positions `j` with `l[j] = v`. -/
def positionsOf (v : Scalar) (l : List Scalar) : List Nat := occFrom 0 v l

/-! ## Concrete instances and the error classifier

Concrete tables, key arrays and linkages used by the witness and
counterexample theorems, and the caller-side error classifier. -/

/-- The concrete array `[int64 1, int64 2, int64 1]` used as the C1 witness. -/
def cIdxArr : PArray :=
  ⟨.prim .int64, [some (.prim (.int64 1)), some (.prim (.int64 2)), some (.prim (.int64 1))]⟩

/-- Left table for the concrete end-to-end linkage (spec scenario 1). -/
def cLT : Table Int := ⟨[10, 20, 30, 40]⟩

/-- Right table for the concrete end-to-end linkage. -/
def cRT : Table Int := ⟨[100, 200, 300, 400]⟩

/-- Left keys `[1, 2, 2, 3]` (int64). -/
def cLK : PArray :=
  ⟨.prim .int64, [1, 2, 2, 3].map (fun n : Int => some (.prim (.int64 n)))⟩

/-- Right keys `[2, 3, 3, 4]` (int64). -/
def cRK : PArray :=
  ⟨.prim .int64, [2, 3, 3, 4].map (fun n : Int => some (.prim (.int64 n)))⟩

/-- The linkage built from `cLT`/`cRT`/`cLK`/`cRK`. -/
def cLink : Linkage Int Int :=
  ⟨cLT, cRT, .ofScalars cLK.scalars, .ofScalars cRK.scalars,
    setUnion (ArrowArrayIndex.ofScalars cLK.scalars).values
      (ArrowArrayIndex.ofScalars cRK.scalars).values⟩

/-- Left keys `[1, 2, 2, 3]` typed int32 instead of int64. -/
def cLK32 : PArray :=
  ⟨.prim .int32, [1, 2, 2, 3].map (fun n : Int => some (.prim (.int32 n)))⟩

/-- Right keys `[2, 3, 3, 4]` typed int32. -/
def cRK32 : PArray :=
  ⟨.prim .int32, [2, 3, 3, 4].map (fun n : Int => some (.prim (.int32 n)))⟩

/-- The linkage with int32 keys. -/
def cLink32 : Linkage Int Int :=
  ⟨cLT, cRT, .ofScalars cLK32.scalars, .ofScalars cRK32.scalars,
    setUnion (ArrowArrayIndex.ofScalars cLK32.scalars).values
      (ArrowArrayIndex.ofScalars cRK32.scalars).values⟩

/-- Left table with two rows for the C3 counterexample. -/
def cNullLT : Table Int := ⟨[10, 20]⟩

/-- Right table with one row. -/
def cNullRT : Table Int := ⟨[100]⟩

/-- A left key array that both contains a null and has length 1 ≠ 2. -/
def cNullLK : PArray := ⟨.prim .int64, [none]⟩

/-- A clean right key array of length 1. -/
def cNullRK : PArray := ⟨.prim .int64, [some (.prim (.int64 5))]⟩

/-- Left table (one row) for the multi-key examples. -/
def cMLT : Table Int := ⟨[7]⟩

/-- Right table (one row) for the multi-key examples. -/
def cMRT : Table Int := ⟨[8]⟩

/-- Key column `a`: int32 `[1]`. -/
def cKA : PrimArray := ⟨.int32, [some (.int32 1)]⟩

/-- Key column `b`: int64 `[10]`. -/
def cKB : PrimArray := ⟨.int64, [some (.int64 10)]⟩

/-- The multi-key linkage built from left order `a, b` and right order
`b, a` over the same key data. -/
def cMKL : MultiKeyLinkage Int Int :=
  ⟨⟨cMLT, cMRT,
    .ofScalars (buildStructArray [("a", cKA), ("b", cKB)]).scalars,
    .ofScalars (buildStructArray [("b", cKB), ("a", cKA)]).scalars,
    setUnion (ArrowArrayIndex.ofScalars (buildStructArray [("a", cKA), ("b", cKB)]).scalars).values
      (ArrowArrayIndex.ofScalars (buildStructArray [("b", cKB), ("a", cKA)]).scalars).values⟩,
   [("a", .int32), ("b", .int64)], .struct [("a", .int32), ("b", .int64)]⟩

/-- The multi-key linkage with both mappings in the order `a, b`. -/
def cMKL2 : MultiKeyLinkage Int Int :=
  ⟨⟨cMLT, cMRT,
    .ofScalars (buildStructArray [("a", cKA), ("b", cKB)]).scalars,
    .ofScalars (buildStructArray [("a", cKA), ("b", cKB)]).scalars,
    setUnion (ArrowArrayIndex.ofScalars (buildStructArray [("a", cKA), ("b", cKB)]).scalars).values
      (ArrowArrayIndex.ofScalars (buildStructArray [("a", cKA), ("b", cKB)]).scalars).values⟩,
   [("a", .int32), ("b", .int64)], .struct [("a", .int32), ("b", .int64)]⟩

/-- The kwargs `a = int32 1, b = 10` used in the C8 witness. -/
def cKwargs : List (String × PyVal) :=
  [("a", .scalar (.prim (.int32 1))), ("b", .pyInt 10)]

/-- The five named validation conditions of the spec. -/
inductive ErrKind where
  | nullKeyValue
  | lengthMismatch
  | keyTypeMismatch
  | keyNameMismatch
  | emptyKeySet
deriving DecidableEq, Repr

/-- A caller-side classifier: determines, from a raised error alone, which
of the five named validation conditions produced it.  (The only
`TypeError` a ready caller can receive from the linkage module is the
per-key type mismatch; the `ValueError` messages are distinguished by
their fixed suffixes and prefixes.) -/
def classifyErr : PyErr → Option ErrKind
  | .typeError _ => some .keyTypeMismatch
  | .keyError _ => none
  | .valueError m =>
    if (" must not contain null values").data <:+ m.data then some .nullKeyValue
    else if (" must have the same length as the left table").data <:+ m.data then
      some .lengthMismatch
    else if (" must have the same length as the right table").data <:+ m.data then
      some .lengthMismatch
    else if m = "Left and right key dictionaries must have the same keys" then
      some .keyNameMismatch
    else if m = "Left and right key dictionaries must not be empty" then
      some .emptyKeySet
    else if ("Keys must match the linkage keys (").data <+: m.data then
      some .keyNameMismatch
    else none

theorem lookupIdx_nil (v : Scalar) : lookupIdx [] v = none := rfl

theorem lookupIdx_cons (w : Scalar) (ps : List Nat) (m : List (Scalar × List Nat))
    (v : Scalar) :
    lookupIdx ((w, ps) :: m) v = if w = v then some ps else lookupIdx m v := by
  by_cases h : w = v
  · simp [lookupIdx, List.find?_cons_of_pos, h]
  · simp [lookupIdx, List.find?_cons_of_neg, h]

theorem anyKey_eq_false_iff (m : List (Scalar × List Nat)) (v : Scalar) :
    m.any (fun p => decide (p.1 = v)) = false ↔ lookupIdx m v = none := by
  induction m with
  | nil => simp [lookupIdx_nil]
  | cons hd tl ih =>
    obtain ⟨w, ps⟩ := hd
    by_cases h : w = v
    · simp [lookupIdx_cons, h]
    · simp [lookupIdx_cons, h, ih]

theorem lookupIdx_map_update (m : List (Scalar × List Nat)) (v : Scalar)
    (i : Nat) :
    lookupIdx (m.map (fun p => if p.1 = v then (p.1, p.2 ++ [i]) else p)) v =
      (lookupIdx m v).map (fun ps => ps ++ [i]) := by
  induction m with
  | nil => simp [lookupIdx_nil]
  | cons hd tl ih =>
    obtain ⟨w, ps⟩ := hd
    by_cases h : w = v
    · subst h
      simp [lookupIdx_cons]
    · simp [lookupIdx_cons, h, ih]

theorem lookupIdx_map_update_ne (m : List (Scalar × List Nat)) (w v : Scalar)
    (hne : w ≠ v) (i : Nat) :
    lookupIdx (m.map (fun p => if p.1 = w then (p.1, p.2 ++ [i]) else p)) v =
      lookupIdx m v := by
  induction m with
  | nil => simp [lookupIdx_nil]
  | cons hd tl ih =>
    obtain ⟨u, ps⟩ := hd
    by_cases h : u = w
    · subst h
      simp [lookupIdx_cons, hne, ih]
    · by_cases h2 : u = v
      · subst h2
        simp [lookupIdx_cons, h]
      · simp [lookupIdx_cons, h, h2, ih]

theorem lookupIdx_append_self (m : List (Scalar × List Nat)) (v : Scalar)
    (l : List Nat) (h : lookupIdx m v = none) :
    lookupIdx (m ++ [(v, l)]) v = some l := by
  induction m with
  | nil => simp [lookupIdx_cons]
  | cons hd tl ih =>
    obtain ⟨w, ps⟩ := hd
    by_cases hw : w = v
    · simp [lookupIdx_cons, hw] at h
    · rw [lookupIdx_cons] at h
      simp only [hw, if_false] at h
      simpa [List.cons_append, lookupIdx_cons, hw] using ih h

theorem lookupIdx_append_ne (m : List (Scalar × List Nat)) (w v : Scalar)
    (l : List Nat) (hne : w ≠ v) :
    lookupIdx (m ++ [(w, l)]) v = lookupIdx m v := by
  induction m with
  | nil => simp [lookupIdx_nil, lookupIdx_cons, hne]
  | cons hd tl ih =>
    obtain ⟨u, ps⟩ := hd
    by_cases hu : u = v
    · simp [List.cons_append, lookupIdx_cons, hu]
    · simp [List.cons_append, lookupIdx_cons, hu, ih]

theorem lookupIdx_insertPos_self (m : List (Scalar × List Nat)) (v : Scalar) (i : Nat) :
    lookupIdx (insertPos m v i) v = some ((lookupIdx m v).getD [] ++ [i]) := by
  unfold insertPos
  by_cases h : m.any (fun p => decide (p.1 = v)) = true
  · rw [if_pos h]
    rcases ho : lookupIdx m v with _ | ps
    · rw [← anyKey_eq_false_iff] at ho
      rw [ho] at h
      cases h
    · rw [lookupIdx_map_update, ho]
      rfl
  · rw [if_neg h]
    rw [Bool.not_eq_true] at h
    rw [anyKey_eq_false_iff] at h
    rw [lookupIdx_append_self m v [i] h, h]
    rfl

theorem lookupIdx_insertPos_ne (m : List (Scalar × List Nat)) (w v : Scalar)
    (i : Nat) (hne : w ≠ v) :
    lookupIdx (insertPos m w i) v = lookupIdx m v := by
  unfold insertPos
  by_cases h : m.any (fun p => decide (p.1 = w)) = true
  · rw [if_pos h, lookupIdx_map_update_ne m w v hne]
  · rw [if_neg h, lookupIdx_append_ne m w v [i] hne]

theorem buildLoop_lookup (l : List Scalar) :
    ∀ (m : List (Scalar × List Nat)) (vs : List Scalar) (i : Nat) (v : Scalar),
    lookupIdx (buildLoop m vs i l).1 v =
      if lookupIdx m v = none ∧ occFrom i v l = [] then none
      else some ((lookupIdx m v).getD [] ++ occFrom i v l) := by
  induction l with
  | nil =>
    intro m vs i v
    rcases h : lookupIdx m v with _ | ps <;> simp [buildLoop, occFrom, h]
  | cons w rest ih =>
    intro m vs i v
    by_cases hw : w = v
    · subst hw
      rw [buildLoop, ih, occFrom, if_pos rfl, lookupIdx_insertPos_self]
      rcases h : lookupIdx m w with _ | ps <;>
        simp [h, List.append_assoc]
    · rw [buildLoop, ih, occFrom, if_neg hw, lookupIdx_insertPos_ne m w v i hw]

theorem mem_buildLoop_values (l : List Scalar) :
    ∀ (m : List (Scalar × List Nat)) (vs : List Scalar) (i : Nat) (x : Scalar),
    x ∈ (buildLoop m vs i l).2 ↔ x ∈ vs ∨ x ∈ l := by
  induction l with
  | nil => intro m vs i x; simp [buildLoop]
  | cons w rest ih =>
    intro m vs i x
    rw [buildLoop, ih]
    unfold insertVal
    by_cases hw : w ∈ vs
    · simp only [if_pos hw, List.mem_cons]
      constructor
      · rintro (h | h)
        · exact Or.inl h
        · exact Or.inr (Or.inr h)
      · rintro (h | h | h)
        · exact Or.inl h
        · exact Or.inl (h ▸ hw)
        · exact Or.inr h
    · simp only [if_neg hw, List.mem_append, List.mem_singleton, List.mem_cons]
      tauto

theorem nodup_buildLoop_values (l : List Scalar) :
    ∀ (m : List (Scalar × List Nat)) (vs : List Scalar), vs.Nodup →
    ∀ i, (buildLoop m vs i l).2.Nodup := by
  induction l with
  | nil => intro m vs h i; exact h
  | cons w rest ih =>
    intro m vs h i
    rw [buildLoop]
    refine ih _ _ ?_ _
    unfold insertVal
    by_cases hw : w ∈ vs
    · simpa [hw] using h
    · simp only [if_neg hw]
      exact List.Nodup.append h (List.nodup_singleton w) (by simpa using hw)

theorem keys_insertPos (m : List (Scalar × List Nat)) (v : Scalar) (i : Nat) :
    (insertPos m v i).map (fun p => p.1) =
      if m.any (fun p => decide (p.1 = v)) then m.map (fun p => p.1)
      else m.map (fun p => p.1) ++ [v] := by
  unfold insertPos
  by_cases h : m.any (fun p => decide (p.1 = v)) = true
  · rw [if_pos h, if_pos h, List.map_map]
    refine List.map_congr_left ?_
    intro p _
    by_cases hp : p.1 = v <;> simp [hp]
  · rw [if_neg h, if_neg h]
    simp

theorem nodup_buildLoop_keys (l : List Scalar) :
    ∀ (m : List (Scalar × List Nat)) (vs : List Scalar),
    (m.map (fun p => p.1)).Nodup →
    ∀ i, ((buildLoop m vs i l).1.map (fun p => p.1)).Nodup := by
  induction l with
  | nil => intro m vs h i; exact h
  | cons w rest ih =>
    intro m vs h i
    rw [buildLoop]
    refine ih _ _ ?_ _
    rw [keys_insertPos]
    by_cases hw : m.any (fun p => decide (p.1 = w)) = true
    · simpa [hw] using h
    · simp only [hw, Bool.false_eq_true, if_false]
      refine List.Nodup.append h (List.nodup_singleton w) ?_
      simp only [List.any_eq_true, decide_eq_true_eq, not_exists, not_and] at hw
      simp only [List.disjoint_singleton]
      intro hmem
      obtain ⟨p, hp, hp1⟩ := List.mem_map.mp hmem
      exact hw p hp hp1

theorem mem_occFrom (l : List Scalar) :
    ∀ (i : Nat) (v : Scalar) (j : Nat),
    j ∈ occFrom i v l ↔ ∃ k, l[k]? = some v ∧ j = i + k := by
  induction l with
  | nil => intro i v j; simp [occFrom]
  | cons w rest ih =>
    intro i v j
    unfold occFrom
    by_cases hw : w = v
    · subst hw
      rw [if_pos rfl]
      constructor
      · intro hmem
        rcases List.mem_cons.mp hmem with rfl | hm
        · exact ⟨0, by simp, by omega⟩
        · obtain ⟨k, hk, rfl⟩ := (ih (i + 1) w j).mp hm
          exact ⟨k + 1, by simpa using hk, by omega⟩
      · rintro ⟨k, hk, rfl⟩
        cases k with
        | zero => exact List.mem_cons.mpr (Or.inl (by omega))
        | succ k' =>
          refine List.mem_cons.mpr (Or.inr ((ih (i + 1) w _).mpr
            ⟨k', by simpa using hk, by omega⟩))
    · rw [if_neg hw]
      constructor
      · intro hm
        obtain ⟨k, hk, rfl⟩ := (ih (i + 1) v j).mp hm
        exact ⟨k + 1, by simpa using hk, by omega⟩
      · rintro ⟨k, hk, rfl⟩
        cases k with
        | zero =>
          simp only [List.getElem?_cons_zero, Option.some_inj] at hk
          exact absurd hk hw
        | succ k' =>
          exact (ih (i + 1) v _).mpr ⟨k', by simpa using hk, by omega⟩

theorem le_of_mem_occFrom {l : List Scalar} {i v j} (h : j ∈ occFrom i v l) :
    i ≤ j := by
  obtain ⟨k, _, rfl⟩ := (mem_occFrom l i v j).mp h
  omega

theorem lt_of_mem_occFrom {l : List Scalar} {i v j} (h : j ∈ occFrom i v l) :
    j < i + l.length := by
  obtain ⟨k, hk, rfl⟩ := (mem_occFrom l i v j).mp h
  have hlt : k < l.length := by
    by_contra hge
    rw [List.getElem?_eq_none (by omega)] at hk
    cases hk
  omega

theorem pairwise_occFrom (l : List Scalar) :
    ∀ (i : Nat) (v : Scalar), (occFrom i v l).Pairwise (· < ·) := by
  induction l with
  | nil => intro i v; simp [occFrom]
  | cons w rest ih =>
    intro i v
    unfold occFrom
    by_cases hw : w = v
    · rw [if_pos hw]
      refine List.Pairwise.cons ?_ (ih (i + 1) v)
      intro j hj
      have := le_of_mem_occFrom hj
      omega
    · rw [if_neg hw]
      exact ih (i + 1) v

theorem occFrom_eq_nil_iff (l : List Scalar) :
    ∀ (i : Nat) (v : Scalar), occFrom i v l = [] ↔ v ∉ l := by
  induction l with
  | nil => intro i v; simp [occFrom]
  | cons w rest ih =>
    intro i v
    unfold occFrom
    by_cases hw : w = v
    · subst hw; simp
    · rw [if_neg hw, ih]
      constructor
      · intro h hmem
        rcases List.mem_cons.mp hmem with h1 | h1
        · exact hw h1.symm
        · exact h h1
      · intro h hmem
        exact h (List.mem_cons_of_mem w hmem)

theorem mem_positionsOf (l : List Scalar) (v : Scalar) (j : Nat) :
    j ∈ positionsOf v l ↔ l[j]? = some v := by
  rw [positionsOf, mem_occFrom]
  constructor
  · rintro ⟨k, hk, rfl⟩
    simpa using hk
  · intro h
    exact ⟨j, h, by omega⟩

theorem lookupIdx_eq_none_iff (m : List (Scalar × List Nat)) (v : Scalar) :
    lookupIdx m v = none ↔ v ∉ m.map (fun p => p.1) := by
  induction m with
  | nil => simp [lookupIdx_nil]
  | cons hd tl ih =>
    obtain ⟨w, ps⟩ := hd
    by_cases h : w = v
    · simp [lookupIdx_cons, h]
    · rw [lookupIdx_cons, if_neg h, ih]
      simp only [List.map_cons, List.mem_cons, not_or]
      constructor
      · intro hnm
        exact ⟨fun hvw => h hvw.symm, hnm⟩
      · intro hh
        exact hh.2

theorem mem_of_lookupIdx_eq_some {m : List (Scalar × List Nat)} {v : Scalar}
    {ps : List Nat} (h : lookupIdx m v = some ps) : (v, ps) ∈ m := by
  induction m with
  | nil => simp [lookupIdx_nil] at h
  | cons hd tl ih =>
    obtain ⟨w, qs⟩ := hd
    rw [lookupIdx_cons] at h
    by_cases hw : w = v
    · rw [if_pos hw] at h
      obtain rfl := Option.some_inj.mp h
      exact List.mem_cons.mpr (Or.inl (by rw [hw]))
    · rw [if_neg hw] at h
      exact List.mem_cons.mpr (Or.inr (ih h))

theorem lookupIdx_eq_some_of_mem {m : List (Scalar × List Nat)} {v : Scalar}
    {ps : List Nat} (hnd : (m.map (fun p => p.1)).Nodup) (h : (v, ps) ∈ m) :
    lookupIdx m v = some ps := by
  induction m with
  | nil => simp at h
  | cons hd tl ih =>
    obtain ⟨w, qs⟩ := hd
    simp only [List.map_cons, List.nodup_cons] at hnd
    rcases List.mem_cons.mp h with h1 | h1
    · cases h1
      simp [lookupIdx_cons]
    · have hwv : w ≠ v := by
        intro he
        apply hnd.1
        rw [he]
        exact List.mem_map.mpr ⟨(v, ps), h1, rfl⟩
      rw [lookupIdx_cons, if_neg hwv]
      exact ih hnd.2 h1

theorem ofScalars_get (l : List Scalar) (v : Scalar) :
    (ArrowArrayIndex.ofScalars l).get v =
      if positionsOf v l = [] then none else some (positionsOf v l) := by
  show lookupIdx (buildLoop [] [] 0 l).1 v = _
  rw [buildLoop_lookup]
  by_cases h : occFrom 0 v l = [] <;>
    simp [lookupIdx_nil, positionsOf, h]

theorem mem_ofScalars_values (l : List Scalar) (x : Scalar) :
    x ∈ (ArrowArrayIndex.ofScalars l).values ↔ x ∈ l := by
  show x ∈ (buildLoop [] [] 0 l).2 ↔ x ∈ l
  rw [mem_buildLoop_values]
  simp

theorem nodup_ofScalars_values (l : List Scalar) :
    (ArrowArrayIndex.ofScalars l).values.Nodup :=
  nodup_buildLoop_values l [] [] List.nodup_nil 0

theorem nodup_ofScalars_keys (l : List Scalar) :
    ((ArrowArrayIndex.ofScalars l).index.map (fun p => p.1)).Nodup :=
  nodup_buildLoop_keys l [] [] (by simp) 0

theorem mem_ofScalars_keys (l : List Scalar) (v : Scalar) :
    v ∈ (ArrowArrayIndex.ofScalars l).index.map (fun p => p.1) ↔ v ∈ l := by
  rw [← not_iff_not, ← lookupIdx_eq_none_iff]
  show lookupIdx (buildLoop [] [] 0 l).1 v = none ↔ v ∉ l
  rw [buildLoop_lookup, ← occFrom_eq_nil_iff l 0 v]
  by_cases h : occFrom 0 v l = []
  · simp [lookupIdx_nil, h]
  · simp [lookupIdx_nil, h]

/-! ## Null-free arrays -/

theorem nullfree_items_eq {γ : Type} (l : List (Option γ))
    (h : (l.filter (fun o => o.isNone)).length = 0) :
    l = (l.filterMap id).map some := by
  induction l with
  | nil => rfl
  | cons o rest ih =>
    cases o with
    | none => simp at h
    | some x =>
      have h2 : (rest.filter (fun o => o.isNone)).length = 0 := by
        simpa using h
      calc some x :: rest = some x :: (rest.filterMap id).map some := by
            rw [← ih h2]
        _ = ((some x :: rest).filterMap id).map some := by
            simp [List.filterMap_cons]

theorem PArray.items_eq_map_scalars (a : PArray) (h : a.nullCount = 0) :
    a.items = a.scalars.map some :=
  nullfree_items_eq a.items h

theorem PArray.scalars_length (a : PArray) (h : a.nullCount = 0) :
    a.scalars.length = a.length := by
  have := a.items_eq_map_scalars h
  unfold PArray.length
  rw [this, List.length_map]

theorem PArray.getElem?_items (a : PArray) (h : a.nullCount = 0) (j : Nat) :
    a.items[j]? = (a.scalars[j]?).map some := by
  rw [a.items_eq_map_scalars h, List.getElem?_map]

/-! ## Claim C1 -/

/-- **C1.** For every null-free array `A` and every scalar value `v`, the
`ArrowArrayIndex` built over `A` satisfies: `get v` returns exactly the
ascending list of 0-based row indices `i` (in original array order) such
that `A[i] == v` under (type, content) equality, and returns absent
(`none`) for any `v` that never occurs in `A`. -/
theorem C1_columnIndex_get_exact (a : PArray) (h : a.nullCount = 0) :
    ArrowArrayIndex.build a = .ok (.ofScalars a.scalars) ∧
    ∀ v : Scalar,
      ((ArrowArrayIndex.ofScalars a.scalars).get v =
        if positionsOf v a.scalars = [] then none
        else some (positionsOf v a.scalars)) ∧
      (∀ j : Nat, j ∈ positionsOf v a.scalars ↔ a.items[j]? = some (some v)) ∧
      ((positionsOf v a.scalars).Pairwise (· < ·)) ∧
      ((ArrowArrayIndex.ofScalars a.scalars).get v = none ↔ v ∉ a.scalars) := by
  refine ⟨?_, ?_⟩
  · unfold ArrowArrayIndex.build
    rw [if_neg (by omega)]
  · intro v
    refine ⟨ofScalars_get _ v, ?_, pairwise_occFrom _ 0 v, ?_⟩
    · intro j
      rw [mem_positionsOf, a.getElem?_items h j]
      rcases a.scalars[j]? with _ | x <;> simp
    · rw [ofScalars_get, positionsOf, ← occFrom_eq_nil_iff a.scalars 0 v]
      by_cases hocc : occFrom 0 v a.scalars = [] <;> simp [hocc]

/-- Witness for C1: the index over `[1, 2, 1]` (int64) maps 1 to `[0, 2]`. -/
theorem C1_columnIndex_get_exact_witness :
    cIdxArr.nullCount = 0 ∧
    (ArrowArrayIndex.ofScalars cIdxArr.scalars).get (.prim (.int64 1)) = some [0, 2] :=
  ⟨by decide, by
    have h := ((C1_columnIndex_get_exact cIdxArr (by decide)).2 (.prim (.int64 1))).1
    rw [h]
    decide⟩

/-! ## Characterization of Linkage construction -/

theorem linkage_init_ok_iff {α β : Type} (lt : Table α) (rt : Table β)
    (lk rk : PArray) (l : Linkage α β) :
    Linkage.init lt rt lk rk = .ok l ↔
      lk.nullCount = 0 ∧ rk.nullCount = 0 ∧
      lk.length = lt.length ∧ rk.length = rt.length ∧
      l = ⟨lt, rt, .ofScalars lk.scalars, .ofScalars rk.scalars,
            setUnion (ArrowArrayIndex.ofScalars lk.scalars).values
              (ArrowArrayIndex.ofScalars rk.scalars).values⟩ := by
  unfold Linkage.init ArrowArrayIndex.build
  by_cases h1 : lk.nullCount > 0
  · rw [if_pos h1]
    constructor
    · intro he
      exact absurd he (by simp)
    · rintro ⟨h, -⟩
      omega
  · rw [if_neg h1]
    by_cases h2 : rk.nullCount > 0
    · rw [if_pos h2]
      constructor
      · intro he
        exact absurd he (by simp)
      · rintro ⟨-, h, -⟩
        omega
    · rw [if_neg h2]
      by_cases h3 : lk.length ≠ lt.length
      · rw [if_pos h3]
        constructor
        · intro he
          exact absurd he (by simp)
        · rintro ⟨-, -, h, -⟩
          exact absurd h h3
      · rw [if_neg h3]
        by_cases h4 : rk.length ≠ rt.length
        · rw [if_pos h4]
          constructor
          · intro he
            exact absurd he (by simp)
          · rintro ⟨-, -, -, h, -⟩
            exact absurd h h4
        · rw [if_neg h4, if_neg h1, if_neg h2]
          show Except.ok _ = Except.ok l ↔ _
          rw [not_not] at h3 h4
          simp only [Except.ok.injEq]
          constructor
          · intro he
            exact ⟨by omega, by omega, h3, h4, he.symm⟩
          · rintro ⟨-, -, -, -, he⟩
            exact he.symm

theorem linkage_init_error_iff {α β : Type} (lt : Table α) (rt : Table β)
    (lk rk : PArray) (e : PyErr) :
    Linkage.init lt rt lk rk = .error e ↔
      (0 < lk.nullCount ∧
        e = .valueError "Left keys must not contain null values") ∨
      (lk.nullCount = 0 ∧ 0 < rk.nullCount ∧
        e = .valueError "Right keys must not contain null values") ∨
      (lk.nullCount = 0 ∧ rk.nullCount = 0 ∧ lk.length ≠ lt.length ∧
        e = .valueError "Left keys must have the same length as the left table") ∨
      (lk.nullCount = 0 ∧ rk.nullCount = 0 ∧ lk.length = lt.length ∧
        rk.length ≠ rt.length ∧
        e = .valueError "Right keys must have the same length as the right table") := by
  unfold Linkage.init ArrowArrayIndex.build
  by_cases h1 : lk.nullCount > 0
  · rw [if_pos h1]
    simp only [Except.error.injEq]
    constructor
    · intro he
      exact Or.inl ⟨h1, he.symm⟩
    · rintro (⟨-, rfl⟩ | ⟨h, -⟩ | ⟨h, -⟩ | ⟨h, -⟩) <;> first | rfl | omega
  · rw [if_neg h1]
    have h1' : lk.nullCount = 0 := by omega
    by_cases h2 : rk.nullCount > 0
    · rw [if_pos h2]
      simp only [Except.error.injEq]
      constructor
      · intro he
        exact Or.inr (Or.inl ⟨h1', h2, he.symm⟩)
      · rintro (⟨h, -⟩ | ⟨-, -, rfl⟩ | ⟨-, h, -⟩ | ⟨-, h, -⟩) <;> first | rfl | omega
    · rw [if_neg h2]
      have h2' : rk.nullCount = 0 := by omega
      by_cases h3 : lk.length ≠ lt.length
      · rw [if_pos h3]
        simp only [Except.error.injEq]
        constructor
        · intro he
          exact Or.inr (Or.inr (Or.inl ⟨h1', h2', h3, he.symm⟩))
        · rintro (⟨h, -⟩ | ⟨-, h, -⟩ | ⟨-, -, -, rfl⟩ | ⟨-, -, h, -⟩) <;>
            first | rfl | omega
      · rw [if_neg h3]
        rw [not_not] at h3
        by_cases h4 : rk.length ≠ rt.length
        · rw [if_pos h4]
          simp only [Except.error.injEq]
          constructor
          · intro he
            exact Or.inr (Or.inr (Or.inr ⟨h1', h2', h3, h4, he.symm⟩))
          · rintro (⟨h, -⟩ | ⟨-, h, -⟩ | ⟨-, -, h, -⟩ | ⟨-, -, -, -, rfl⟩) <;>
              first | rfl | omega
        · rw [if_neg h4, if_neg h1, if_neg h2]
          rw [not_not] at h4
          show Except.ok _ = Except.error e ↔ _
          constructor
          · intro he
            exact Except.noConfusion he
          · rintro (⟨h, -⟩ | ⟨-, h, -⟩ | ⟨-, -, h, -⟩ | ⟨-, -, -, h, -⟩) <;>
              first | omega

/-! ## Selection lemmas -/

theorem selectLeftScalar_none {α β : Type} {l : Linkage α β} {v : Scalar}
    (h : l.left_index.get v = none) : l.selectLeftScalar v = l.left_table.empty := by
  unfold Linkage.selectLeftScalar
  rw [h]

theorem selectLeftScalar_some {α β : Type} {l : Linkage α β} {v : Scalar}
    {idxs : List Nat} (h : l.left_index.get v = some idxs) :
    l.selectLeftScalar v = l.left_table.take idxs := by
  unfold Linkage.selectLeftScalar
  rw [h]

theorem selectRightScalar_none {α β : Type} {l : Linkage α β} {v : Scalar}
    (h : l.right_index.get v = none) : l.selectRightScalar v = l.right_table.empty := by
  unfold Linkage.selectRightScalar
  rw [h]

theorem selectRightScalar_some {α β : Type} {l : Linkage α β} {v : Scalar}
    {idxs : List Nat} (h : l.right_index.get v = some idxs) :
    l.selectRightScalar v = l.right_table.take idxs := by
  unfold Linkage.selectRightScalar
  rw [h]

theorem ofScalars_get_some {l : List Scalar} {v : Scalar} {idxs : List Nat}
    (h : (ArrowArrayIndex.ofScalars l).get v = some idxs) :
    idxs = positionsOf v l ∧ idxs ≠ [] := by
  rw [ofScalars_get] at h
  by_cases hp : positionsOf v l = []
  · rw [if_pos hp] at h
    cases h
  · rw [if_neg hp] at h
    obtain rfl := Option.some_inj.mp h
    exact ⟨rfl, hp⟩

theorem positions_bound {l : List Scalar} {v : Scalar} {i : Nat}
    (h : i ∈ positionsOf v l) : i < l.length := by
  have := lt_of_mem_occFrom (l := l) (i := 0) (v := v) h
  omega

theorem take_length_of_bounded {α : Type} (t : Table α) (idxs : List Nat)
    (h : ∀ i ∈ idxs, i < t.rows.length) :
    (t.take idxs).rows.length = idxs.length := by
  unfold Table.take
  induction idxs with
  | nil => rfl
  | cons i rest ih =>
    have hi : i < t.rows.length := h i (List.mem_cons_self i rest)
    simp only [List.filterMap_cons, List.getElem?_eq_getElem hi]
    simpa using ih (fun j hj => h j (List.mem_cons_of_mem i hj))

theorem take_rows_of_bounded {α : Type} (t : Table α) (idxs : List Nat)
    (h : ∀ i ∈ idxs, i < t.rows.length) (d : α) :
    (t.take idxs).rows = idxs.map (fun i => t.rows.getD i d) := by
  unfold Table.take
  induction idxs with
  | nil => rfl
  | cons i rest ih =>
    have hi : i < t.rows.length := h i (List.mem_cons_self i rest)
    simp only [List.filterMap_cons, List.getElem?_eq_getElem hi, List.map_cons]
    rw [List.getD_eq_getElem t.rows d hi]
    simpa using ih (fun j hj => h j (List.mem_cons_of_mem i hj))

theorem mem_setUnion (a b : List Scalar) (x : Scalar) :
    x ∈ setUnion a b ↔ x ∈ a ∨ x ∈ b := by
  unfold setUnion
  rw [List.mem_append, List.mem_filter]
  constructor
  · rintro (h | ⟨h, -⟩)
    · exact Or.inl h
    · exact Or.inr h
  · rintro (h | h)
    · exact Or.inl h
    · by_cases ha : x ∈ a
      · exact Or.inl ha
      · exact Or.inr ⟨h, by simpa using ha⟩

theorem nodup_setUnion {a b : List Scalar} (ha : a.Nodup) (hb : b.Nodup) :
    (setUnion a b).Nodup := by
  unfold setUnion
  refine List.Nodup.append ha (hb.filter _) ?_
  intro x hxa hxf
  have := (List.mem_filter.mp hxf).2
  simp only [decide_eq_true_eq] at this
  exact this hxa

/-! ## Claim C2 -/

/-- **C2.** For every successfully constructed `Linkage` and every value
`v`, `select_left v` returns the left table restricted to exactly the row
indices stored in `left_index.get v`, in that stored order, and returns
the left table's canonical zero-row instance when `v` is absent;
`select_right` behaves symmetrically; `select` returns the pair of both;
no select call fails on account of value absence (all three are total
functions). -/
theorem C2_select_left_right_spec {α β : Type} (lt : Table α) (rt : Table β)
    (lk rk : PArray) (l : Linkage α β)
    (h : Linkage.init lt rt lk rk = .ok l) (v : PyVal) :
    l.select v = (l.select_left v, l.select_right v) ∧
    (l.left_index.get (paScalarInfer v) = none →
      l.select_left v = lt.empty) ∧
    (∀ idxs, l.left_index.get (paScalarInfer v) = some idxs →
      (∀ i ∈ idxs, i < lt.rows.length) ∧
      ∀ d : α, (l.select_left v).rows = idxs.map (fun i => lt.rows.getD i d)) ∧
    (l.right_index.get (paScalarInfer v) = none →
      l.select_right v = rt.empty) ∧
    (∀ idxs, l.right_index.get (paScalarInfer v) = some idxs →
      (∀ i ∈ idxs, i < rt.rows.length) ∧
      ∀ d : β, (l.select_right v).rows = idxs.map (fun i => rt.rows.getD i d)) := by
  obtain ⟨hn1, hn2, hl1, hl2, rfl⟩ := (linkage_init_ok_iff lt rt lk rk l).mp h
  refine ⟨rfl, ?_, ?_, ?_, ?_⟩
  · intro hget
    exact selectLeftScalar_none hget
  · intro idxs hget
    obtain ⟨rfl, -⟩ := ofScalars_get_some hget
    have hbound : ∀ i ∈ positionsOf (paScalarInfer v) lk.scalars, i < lt.rows.length := by
      intro i hi
      have h1 := positions_bound hi
      have h2 := lk.scalars_length hn1
      unfold PArray.length Table.length at *
      omega
    refine ⟨hbound, ?_⟩
    intro d
    rw [show Linkage.select_left _ v =
      Table.take lt (positionsOf (paScalarInfer v) lk.scalars) from
      selectLeftScalar_some hget]
    exact take_rows_of_bounded lt _ hbound d
  · intro hget
    exact selectRightScalar_none hget
  · intro idxs hget
    obtain ⟨rfl, -⟩ := ofScalars_get_some hget
    have hbound : ∀ i ∈ positionsOf (paScalarInfer v) rk.scalars, i < rt.rows.length := by
      intro i hi
      have h1 := positions_bound hi
      have h2 := rk.scalars_length hn2
      unfold PArray.length Table.length at *
      omega
    refine ⟨hbound, ?_⟩
    intro d
    rw [show Linkage.select_right _ v =
      Table.take rt (positionsOf (paScalarInfer v) rk.scalars) from
      selectRightScalar_some hget]
    exact take_rows_of_bounded rt _ hbound d

/-- Witness for C2: on keys `[1,2,2,3]` vs `[2,3,3,4]`, `select_left 2`
gives rows 1 and 2 of the left table and `select_right 5` is empty. -/
theorem C2_select_left_right_spec_witness :
    Linkage.init cLT cRT cLK cRK = .ok cLink ∧
    (cLink.select_left (.scalar (.prim (.int64 2)))).rows = [20, 30] ∧
    cLink.select_right (.scalar (.prim (.int64 5))) = cRT.empty := by
  have hinit : Linkage.init cLT cRT cLK cRK = .ok cLink :=
    (linkage_init_ok_iff cLT cRT cLK cRK cLink).mpr
      ⟨by decide, by decide, by decide, by decide, by decide⟩
  refine ⟨hinit, ?_, ?_⟩
  · have h2 := (C2_select_left_right_spec cLT cRT cLK cRK cLink hinit
      (.scalar (.prim (.int64 2)))).2.2.1 [1, 2] (by decide)
    rw [h2.2 0]
    decide
  · exact (C2_select_left_right_spec cLT cRT cLK cRK cLink hinit
      (.scalar (.prim (.int64 5)))).2.2.2.1 (by decide)

/-! ## Claim C5 -/

/-- **C5.** For every successfully constructed `Linkage`, `len` (the
`size()` of the spec) equals the cardinality of the union of the distinct
left-key values and the distinct right-key values. -/
theorem C5_len_eq_card_union {α β : Type} (lt : Table α) (rt : Table β)
    (lk rk : PArray) (l : Linkage α β)
    (h : Linkage.init lt rt lk rk = .ok l) :
    l.len = (l.left_index.values.toFinset ∪ l.right_index.values.toFinset).card := by
  obtain ⟨hn1, hn2, hl1, hl2, rfl⟩ := (linkage_init_ok_iff lt rt lk rk l).mp h
  show (setUnion (ArrowArrayIndex.ofScalars lk.scalars).values
    (ArrowArrayIndex.ofScalars rk.scalars).values).length = _
  have hnd := nodup_setUnion (nodup_ofScalars_values lk.scalars)
    (nodup_ofScalars_values rk.scalars)
  rw [← List.toFinset_card_of_nodup hnd]
  congr 1
  ext x
  simp only [List.mem_toFinset, Finset.mem_union, mem_setUnion]

/-- Witness for C5: the linkage over `[1,2,2,3]` and `[2,3,3,4]` has
`len = 4`, the size of the union `{1,2,3,4}`. -/
theorem C5_len_eq_card_union_witness :
    cLink.len = 4 ∧
    (cLink.left_index.values.toFinset ∪ cLink.right_index.values.toFinset).card = 4 := by
  have hinit : Linkage.init cLT cRT cLK cRK = .ok cLink :=
    (linkage_init_ok_iff cLT cRT cLK cRK cLink).mpr
      ⟨by decide, by decide, by decide, by decide, by decide⟩
  have h := C5_len_eq_card_union cLT cRT cLK cRK cLink hinit
  refine ⟨by decide, ?_⟩
  rw [← h]
  decide

/-! ## Claim C4 -/

/-- **C4.** For every successfully constructed `Linkage`, `iterate` yields
exactly `len` tuples `(value, selectLeft value, selectRight value)`; the
yielded values are exactly the union of the two indexes' distinct values,
each appearing exactly once; a value present only on the left yields a
non-empty left selection paired with the canonical empty right table, and
symmetrically.  (No ordering of the yielded values is asserted.) -/
theorem C4_iterate_full_outer {α β : Type} (lt : Table α) (rt : Table β)
    (lk rk : PArray) (l : Linkage α β)
    (h : Linkage.init lt rt lk rk = .ok l) :
    l.iterate.length = l.len ∧
    l.iterate.map (fun t => t.1) = l.all_unique_values ∧
    l.all_unique_values.Nodup ∧
    (∀ v : Scalar, v ∈ l.all_unique_values ↔
      v ∈ l.left_index.values ∨ v ∈ l.right_index.values) ∧
    (∀ t ∈ l.iterate,
      t.2.1 = l.selectLeftScalar t.1 ∧ t.2.2 = l.selectRightScalar t.1) ∧
    (∀ v ∈ l.left_index.values, v ∉ l.right_index.values →
      (l.selectLeftScalar v).rows ≠ [] ∧ l.selectRightScalar v = rt.empty) ∧
    (∀ v ∈ l.right_index.values, v ∉ l.left_index.values →
      (l.selectRightScalar v).rows ≠ [] ∧ l.selectLeftScalar v = lt.empty) := by
  obtain ⟨hn1, hn2, hl1, hl2, rfl⟩ := (linkage_init_ok_iff lt rt lk rk l).mp h
  refine ⟨by simp [Linkage.iterate, Linkage.len], ?_, ?_, ?_, ?_, ?_, ?_⟩
  · show List.map _ (List.map _ _) = _
    rw [List.map_map]
    exact List.map_id _
  · exact nodup_setUnion (nodup_ofScalars_values lk.scalars)
      (nodup_ofScalars_values rk.scalars)
  · intro v
    exact mem_setUnion _ _ v
  · intro t ht
    obtain ⟨v, -, rfl⟩ := List.mem_map.mp ht
    exact ⟨rfl, rfl⟩
  · intro v hvl hvr
    have hvl' : v ∈ lk.scalars := (mem_ofScalars_values lk.scalars v).mp hvl
    have hvr' : v ∉ rk.scalars := fun hc =>
      hvr ((mem_ofScalars_values rk.scalars v).mpr hc)
    have hLpos : positionsOf v lk.scalars ≠ [] := by
      rw [positionsOf, Ne, occFrom_eq_nil_iff]
      simpa using hvl'
    have hRpos : positionsOf v rk.scalars = [] := by
      rw [positionsOf, occFrom_eq_nil_iff]
      exact hvr'
    constructor
    · have hget : (ArrowArrayIndex.ofScalars lk.scalars).get v =
        some (positionsOf v lk.scalars) := by
        rw [ofScalars_get, if_neg hLpos]
      rw [selectLeftScalar_some hget]
      have hbound : ∀ i ∈ positionsOf v lk.scalars, i < lt.rows.length := by
        intro i hi
        have h1 := positions_bound hi
        have h2 := lk.scalars_length hn1
        unfold PArray.length Table.length at *
        omega
      intro hcon
      have hlen := take_length_of_bounded lt _ hbound
      rw [hcon] at hlen
      exact hLpos (List.length_eq_zero.mp hlen.symm)
    · have hget : (ArrowArrayIndex.ofScalars rk.scalars).get v = none := by
        rw [ofScalars_get, if_pos hRpos]
      exact selectRightScalar_none hget
  · intro v hvr hvl
    have hvr' : v ∈ rk.scalars := (mem_ofScalars_values rk.scalars v).mp hvr
    have hvl' : v ∉ lk.scalars := fun hc =>
      hvl ((mem_ofScalars_values lk.scalars v).mpr hc)
    have hRpos : positionsOf v rk.scalars ≠ [] := by
      rw [positionsOf, Ne, occFrom_eq_nil_iff]
      simpa using hvr'
    have hLpos : positionsOf v lk.scalars = [] := by
      rw [positionsOf, occFrom_eq_nil_iff]
      exact hvl'
    constructor
    · have hget : (ArrowArrayIndex.ofScalars rk.scalars).get v =
        some (positionsOf v rk.scalars) := by
        rw [ofScalars_get, if_neg hRpos]
      rw [selectRightScalar_some hget]
      have hbound : ∀ i ∈ positionsOf v rk.scalars, i < rt.rows.length := by
        intro i hi
        have h1 := positions_bound hi
        have h2 := rk.scalars_length hn2
        unfold PArray.length Table.length at *
        omega
      intro hcon
      have hlen := take_length_of_bounded rt _ hbound
      rw [hcon] at hlen
      exact hRpos (List.length_eq_zero.mp hlen.symm)
    · have hget : (ArrowArrayIndex.ofScalars lk.scalars).get v = none := by
        rw [ofScalars_get, if_pos hLpos]
      exact selectLeftScalar_none hget

/-- Witness for C4: value 1 occurs only on the left side of `cLink`;
iterating yields 4 tuples and value 1 gives a non-empty left selection
with an empty right table. -/
theorem C4_iterate_full_outer_witness :
    cLink.iterate.length = 4 ∧
    (cLink.selectLeftScalar (.prim (.int64 1))).rows ≠ [] ∧
    cLink.selectRightScalar (.prim (.int64 1)) = cRT.empty := by
  have hinit : Linkage.init cLT cRT cLK cRK = .ok cLink :=
    (linkage_init_ok_iff cLT cRT cLK cRK cLink).mpr
      ⟨by decide, by decide, by decide, by decide, by decide⟩
  have h := C4_iterate_full_outer cLT cRT cLK cRK cLink hinit
  have honly := h.2.2.2.2.2.1 (.prim (.int64 1)) (by decide) (by decide)
  exact ⟨by rw [h.1]; decide, honly.1, honly.2⟩

/-! ## Claim C9 -/

/-- **C9.** `select_left`, `select_right` and `select` accept raw (non
`pa.Scalar`) arguments, coercing them by generic type inference before the
lookup; since the lookup compares by (type, content) equality, whenever
the inferred type of the raw argument differs from the type of every
value in the key index, the selection returns the empty table — even when
a numerically coincident key value is present. -/
theorem C9_raw_argument_type_miss {α β : Type} (lt : Table α) (rt : Table β)
    (lk rk : PArray) (l : Linkage α β)
    (h : Linkage.init lt rt lk rk = .ok l) (v : PyVal)
    (hL : ∀ s ∈ l.left_index.values, s.dtype ≠ (paScalarInfer v).dtype) :
    l.select_left v = lt.empty ∧
    ((∀ s ∈ l.right_index.values, s.dtype ≠ (paScalarInfer v).dtype) →
      l.select v = (lt.empty, rt.empty)) := by
  obtain ⟨hn1, hn2, hl1, hl2, rfl⟩ := (linkage_init_ok_iff lt rt lk rk l).mp h
  have hnoneL : (ArrowArrayIndex.ofScalars lk.scalars).get (paScalarInfer v) = none := by
    by_contra hc
    have hkey : paScalarInfer v ∈
        (ArrowArrayIndex.ofScalars lk.scalars).index.map (fun p => p.1) := by
      by_contra hk
      exact hc ((lookupIdx_eq_none_iff _ _).mpr hk)
    have hs : paScalarInfer v ∈ lk.scalars := (mem_ofScalars_keys _ _).mp hkey
    exact hL _ ((mem_ofScalars_values _ _).mpr hs) rfl
  refine ⟨selectLeftScalar_none hnoneL, ?_⟩
  intro hR
  have hnoneR : (ArrowArrayIndex.ofScalars rk.scalars).get (paScalarInfer v) = none := by
    by_contra hc
    have hkey : paScalarInfer v ∈
        (ArrowArrayIndex.ofScalars rk.scalars).index.map (fun p => p.1) := by
      by_contra hk
      exact hc ((lookupIdx_eq_none_iff _ _).mpr hk)
    have hs : paScalarInfer v ∈ rk.scalars := (mem_ofScalars_keys _ _).mp hkey
    exact hR _ ((mem_ofScalars_values _ _).mpr hs) rfl
  show (Linkage.selectLeftScalar _ _, Linkage.selectRightScalar _ _) = _
  rw [selectLeftScalar_none hnoneL, selectRightScalar_none hnoneR]

/-- Witness for C9: in the int32-keyed linkage, the raw Python int 2
(inferred int64) selects nothing, although int32 2 is an indexed key that
selects rows `[20, 30]`. -/
theorem C9_raw_argument_type_miss_witness :
    (Scalar.prim (.int32 2)) ∈ cLink32.left_index.values ∧
    cLink32.select_left (.pyInt 2) = cLT.empty ∧
    (cLink32.select_left (.scalar (.prim (.int32 2)))).rows = [20, 30] := by
  have hinit : Linkage.init cLT cRT cLK32 cRK32 = .ok cLink32 :=
    (linkage_init_ok_iff cLT cRT cLK32 cRK32 cLink32).mpr
      ⟨by decide, by decide, by decide, by decide, by decide⟩
  refine ⟨by decide, ?_, by decide⟩
  exact (C9_raw_argument_type_miss cLT cRT cLK32 cRK32 cLink32 hinit
    (.pyInt 2) (by decide)).1

/-! ## Claim C10 -/

theorem entry_facts {a : PArray} (h : a.nullCount = 0)
    {e : Scalar × List Nat} (he : e ∈ (ArrowArrayIndex.ofScalars a.scalars).index) :
    e.2 = positionsOf e.1 a.scalars ∧ e.2 ≠ [] ∧
    (∀ j : Nat, j ∈ e.2 ↔ a.items[j]? = some (some e.1)) := by
  have hmem : (e.1, e.2) ∈ (ArrowArrayIndex.ofScalars a.scalars).index := by
    rw [Prod.mk.eta]
    exact he
  have hget : (ArrowArrayIndex.ofScalars a.scalars).get e.1 = some e.2 :=
    lookupIdx_eq_some_of_mem (nodup_ofScalars_keys a.scalars) hmem
  obtain ⟨hpos, hne⟩ := ofScalars_get_some hget
  refine ⟨hpos, by rw [hpos] at hne ⊢; exact hne, ?_⟩
  intro j
  rw [hpos, mem_positionsOf, a.getElem?_items h j]
  rcases a.scalars[j]? with _ | x <;> simp

/-- **C10.** Invariants of every successfully built Column Index and
every ready Linkage: `values` (the distinct values) is exactly the key
set of the positions dict; every stored position sequence is non-empty;
for each row `j < N` there is an entry containing `j`, it is the entry
keyed by the value at row `j`, and no two distinct entries share a
position; `all_unique_values` holds exactly the values occurring in the
left or right key array, and the linkage keeps the two table references
unchanged.  (In this embedding every read operation — `get`, the selects,
`iterate`, `len` — is a pure function, so reads leave the indexes, the
union, and the tables unchanged by construction.) -/
theorem C10_index_and_linkage_invariants :
    (∀ a : PArray, a.nullCount = 0 →
      (∀ v : Scalar, v ∈ (ArrowArrayIndex.ofScalars a.scalars).values ↔
        v ∈ (ArrowArrayIndex.ofScalars a.scalars).index.map (fun p => p.1)) ∧
      (∀ e ∈ (ArrowArrayIndex.ofScalars a.scalars).index,
        e.2 ≠ [] ∧ (∀ j : Nat, j ∈ e.2 ↔ a.items[j]? = some (some e.1))) ∧
      (∀ j : Nat, j < a.length →
        ∃ e ∈ (ArrowArrayIndex.ofScalars a.scalars).index, j ∈ e.2) ∧
      (∀ e1 ∈ (ArrowArrayIndex.ofScalars a.scalars).index,
        ∀ e2 ∈ (ArrowArrayIndex.ofScalars a.scalars).index,
        ∀ j : Nat, j ∈ e1.2 → j ∈ e2.2 → e1 = e2)) ∧
    (∀ (α β : Type) (lt : Table α) (rt : Table β) (lk rk : PArray)
      (l : Linkage α β), Linkage.init lt rt lk rk = .ok l →
      l.left_table = lt ∧ l.right_table = rt ∧
      (∀ v : Scalar, v ∈ l.all_unique_values ↔
        v ∈ lk.scalars ∨ v ∈ rk.scalars)) := by
  constructor
  · intro a h
    refine ⟨?_, ?_, ?_, ?_⟩
    · intro v
      rw [mem_ofScalars_values, mem_ofScalars_keys]
    · intro e he
      exact ⟨(entry_facts h he).2.1, (entry_facts h he).2.2⟩
    · intro j hj
      have hjs : j < a.scalars.length := by
        have := a.scalars_length h
        omega
      have hsj : a.scalars[j]? = some a.scalars[j] := List.getElem?_eq_getElem hjs
      have hkey : a.scalars[j] ∈
          (ArrowArrayIndex.ofScalars a.scalars).index.map (fun p => p.1) :=
        (mem_ofScalars_keys a.scalars _).mpr (a.scalars.getElem_mem hjs)
      obtain ⟨e, he, he1⟩ := List.mem_map.mp hkey
      refine ⟨e, he, ?_⟩
      rw [(entry_facts h he).1, he1, mem_positionsOf]
      exact hsj
    · intro e1 he1 e2 he2 j hj1 hj2
      have hv1 := ((entry_facts h he1).2.2 j).mp hj1
      have hv2 := ((entry_facts h he2).2.2 j).mp hj2
      have hkey : e1.1 = e2.1 := by
        rw [hv1] at hv2
        exact Option.some_inj.mp (Option.some_inj.mp hv2)
      have hp1 := (entry_facts h he1).1
      have hp2 := (entry_facts h he2).1
      have hval : e1.2 = e2.2 := by
        rw [hp1, hp2, hkey]
      exact Prod.ext hkey hval
  · intro α β lt rt lk rk l h
    obtain ⟨hn1, hn2, hl1, hl2, rfl⟩ := (linkage_init_ok_iff lt rt lk rk l).mp h
    refine ⟨rfl, rfl, ?_⟩
    intro v
    rw [show (⟨lt, rt, _, _, setUnion (ArrowArrayIndex.ofScalars lk.scalars).values
      (ArrowArrayIndex.ofScalars rk.scalars).values⟩ : Linkage α β).all_unique_values =
      setUnion (ArrowArrayIndex.ofScalars lk.scalars).values
        (ArrowArrayIndex.ofScalars rk.scalars).values from rfl]
    rw [mem_setUnion, mem_ofScalars_values, mem_ofScalars_values]

/-- Witness for C10 at the concrete linkage `cLink`. -/
theorem C10_index_and_linkage_invariants_witness :
    ((Scalar.prim (.int64 1)) ∈ (ArrowArrayIndex.ofScalars cLK.scalars).values ↔
      (Scalar.prim (.int64 1)) ∈
        (ArrowArrayIndex.ofScalars cLK.scalars).index.map (fun p => p.1)) ∧
    ((Scalar.prim (.int64 4)) ∈ cLink.all_unique_values ↔
      (Scalar.prim (.int64 4)) ∈ cLK.scalars ∨ (Scalar.prim (.int64 4)) ∈ cRK.scalars) := by
  have hinit : Linkage.init cLT cRT cLK cRK = .ok cLink :=
    (linkage_init_ok_iff cLT cRT cLK cRK cLink).mpr
      ⟨by decide, by decide, by decide, by decide, by decide⟩
  exact ⟨(C10_index_and_linkage_invariants.1 cLK (by decide)).1 _,
    (C10_index_and_linkage_invariants.2 Int Int cLT cRT cLK cRK cLink hinit).2.2 _⟩

/-! ## Claim C3 -/

/-- Counterexample to C3 as stated: on an input whose left key array both
contains a null and mismatches the left table's length, construction
reports the null-key error — not the length error the claim predicts —
and the error is raised by `Linkage.__init__` itself, not propagated from
the index build (whose message differs). -/
theorem C3_counterexample_null_before_length :
    0 < cNullLK.nullCount ∧ cNullLK.length ≠ cNullLT.length ∧
    Linkage.init cNullLT cNullRT cNullLK cNullRK =
      .error (.valueError "Left keys must not contain null values") ∧
    Linkage.init cNullLT cNullRT cNullLK cNullRK ≠
      .error (.valueError "Left keys must have the same length as the left table") ∧
    Linkage.init cNullLT cNullRT cNullLK cNullRK ≠
      .error (.valueError "Array must not contain null values to be an index") := by
  have h1 : Linkage.init cNullLT cNullRT cNullLK cNullRK =
      .error (.valueError "Left keys must not contain null values") := rfl
  refine ⟨by decide, by decide, h1, ?_, ?_⟩
  · intro hcon
    rw [h1] at hcon
    exact absurd (Except.error.inj hcon) (by decide)
  · intro hcon
    rw [h1] at hcon
    exact absurd (Except.error.inj hcon) (by decide)

/-- **C3 (amended).** `Linkage` construction fails with the null-key
`ValueError` whenever a key array contains a null — the null checks are
performed directly in `Linkage.__init__` (not propagated from the Column
Index build) and precede the length validation — and fails with the
length-mismatch `ValueError` exactly when both key arrays are null-free
and a key array's length differs from its table's row count; hence an
input with both a null key and a length mismatch reports the null-key
error, not the length mismatch. -/
theorem C3_error_order_characterization {α β : Type} (lt : Table α)
    (rt : Table β) (lk rk : PArray) (e : PyErr) :
    Linkage.init lt rt lk rk = .error e ↔
      (0 < lk.nullCount ∧
        e = .valueError "Left keys must not contain null values") ∨
      (lk.nullCount = 0 ∧ 0 < rk.nullCount ∧
        e = .valueError "Right keys must not contain null values") ∨
      (lk.nullCount = 0 ∧ rk.nullCount = 0 ∧ lk.length ≠ lt.length ∧
        e = .valueError "Left keys must have the same length as the left table") ∨
      (lk.nullCount = 0 ∧ rk.nullCount = 0 ∧ lk.length = lt.length ∧
        rk.length ≠ rt.length ∧
        e = .valueError "Right keys must have the same length as the right table") :=
  linkage_init_error_iff lt rt lk rk e

/-! ## Association-list and mapM lemmas for the multi-key machinery -/

theorem alistFind_nil {γ : Type} (k : String) : alistFind ([] : List (String × γ)) k = none := rfl

theorem alistFind_cons {γ : Type} (k0 : String) (a0 : γ) (rest : List (String × γ))
    (k : String) :
    alistFind ((k0, a0) :: rest) k = if k0 = k then some a0 else alistFind rest k := by
  by_cases h : k0 = k
  · simp [alistFind, List.find?_cons_of_pos, h]
  · simp [alistFind, List.find?_cons_of_neg, h]

theorem alistFind_isSome_of_mem_names {γ : Type} {l : List (String × γ)} {k : String}
    (h : k ∈ l.map (fun kv => kv.1)) : ∃ a, alistFind l k = some a := by
  induction l with
  | nil => simp at h
  | cons hd tl ih =>
    obtain ⟨k0, a0⟩ := hd
    rw [alistFind_cons]
    by_cases hk : k0 = k
    · exact ⟨a0, if_pos hk⟩
    · rw [if_neg hk]
      refine ih ?_
      rcases List.mem_map.mp h with ⟨kv, hkv, hk1⟩
      rcases List.mem_cons.mp hkv with rfl | hkv'
      · exact absurd hk1 hk
      · exact List.mem_map.mpr ⟨kv, hkv', hk1⟩

theorem alistFind_eq_some_of_mem {γ : Type} {l : List (String × γ)} {kv : String × γ}
    (hnd : (l.map (fun p => p.1)).Nodup) (h : kv ∈ l) :
    alistFind l kv.1 = some kv.2 := by
  induction l with
  | nil => simp at h
  | cons hd tl ih =>
    obtain ⟨k0, a0⟩ := hd
    simp only [List.map_cons, List.nodup_cons] at hnd
    rcases List.mem_cons.mp h with h1 | h1
    · rw [h1, alistFind_cons, if_pos rfl]
    · have hk : k0 ≠ kv.1 := by
        intro he
        apply hnd.1
        rw [he]
        exact List.mem_map.mpr ⟨kv, h1, rfl⟩
      rw [alistFind_cons, if_neg hk]
      exact ih hnd.2 h1

theorem mem_of_alistFind_eq_some {γ : Type} {l : List (String × γ)} {k : String}
    {a : γ} (h : alistFind l k = some a) : (k, a) ∈ l := by
  induction l with
  | nil => simp [alistFind_nil] at h
  | cons hd tl ih =>
    obtain ⟨k0, a0⟩ := hd
    rw [alistFind_cons] at h
    by_cases hk : k0 = k
    · rw [if_pos hk] at h
      obtain rfl := Option.some_inj.mp h
      exact List.mem_cons.mpr (Or.inl (by rw [hk]))
    · rw [if_neg hk] at h
      exact List.mem_cons.mpr (Or.inr (ih h))

theorem exceptMapM_ok {γ δ : Type} (f : γ → Except PyErr δ) (g : γ → δ) :
    ∀ (l : List γ), (∀ x ∈ l, f x = .ok (g x)) →
    l.mapM f = .ok (l.map g) := by
  intro l
  induction l with
  | nil => intro _; rfl
  | cons x rest ih =>
    intro h
    rw [List.mapM_cons, h x (List.mem_cons_self x rest),
      ih (fun y hy => h y (List.mem_cons_of_mem x hy))]
    rfl

theorem exceptMapM_error {γ δ : Type} (f : γ → Except PyErr δ) :
    ∀ (l : List γ) (e : PyErr), l.mapM f = .error e → ∃ x ∈ l, f x = .error e := by
  intro l
  induction l with
  | nil => intro e h; cases h
  | cons x rest ih =>
    intro e h
    rw [List.mapM_cons] at h
    rcases hx : f x with ex | dx
    · rw [hx] at h
      refine ⟨x, List.mem_cons_self x rest, ?_⟩
      rw [hx]
      cases h
      rfl
    · rw [hx] at h
      rcases hrest : rest.mapM f with er | ds
      · rw [hrest] at h
        obtain ⟨y, hy, hfy⟩ := ih er hrest
        cases h
        exact ⟨y, List.mem_cons_of_mem x hy, hfy⟩
      · rw [hrest] at h
        cases h

theorem checkKeysLoop_ok {ltLen rtLen : Nat} {rks : List (String × PrimArray)} :
    ∀ {lks : List (String × PrimArray)} {ds : List (String × PrimType)},
    checkKeysLoop ltLen rtLen rks lks = .ok ds →
    ds = lks.map (fun kv => (kv.1, kv.2.dtype)) ∧
    ∀ kv ∈ lks, ∃ ra, lookupArr rks kv.1 = some ra ∧ kv.2.dtype = ra.dtype ∧
      kv.2.nullCount = 0 ∧ ra.nullCount = 0 ∧
      kv.2.length = ltLen ∧ ra.length = rtLen := by
  intro lks
  induction lks with
  | nil =>
    intro ds h
    obtain rfl := Except.ok.inj h
    exact ⟨rfl, by simp⟩
  | cons kv rest ih =>
    intro ds h
    obtain ⟨k, la⟩ := kv
    unfold checkKeysLoop at h
    rcases hra : lookupArr rks k with _ | ra <;> rw [hra] at h
    · cases h
    · dsimp only at h
      by_cases ht : la.dtype = ra.dtype
      case neg =>
        rw [if_pos (by simpa using ht)] at h
        cases h
      case pos =>
      rw [if_neg (by simpa using ht)] at h
      by_cases hn1 : la.nullCount > 0
      case pos =>
        rw [if_pos hn1] at h
        cases h
      case neg =>
      rw [if_neg hn1] at h
      by_cases hn2 : ra.nullCount > 0
      case pos =>
        rw [if_pos hn2] at h
        cases h
      case neg =>
      rw [if_neg hn2] at h
      by_cases hm1 : la.length = ltLen
      case neg =>
        rw [if_pos (by simpa using hm1)] at h
        cases h
      case pos =>
      rw [if_neg (by simpa using hm1)] at h
      by_cases hm2 : ra.length = rtLen
      case neg =>
        rw [if_pos (by simpa using hm2)] at h
        cases h
      case pos =>
      rw [if_neg (by simpa using hm2)] at h
      rcases hrec : checkKeysLoop ltLen rtLen rks rest with e | ds' <;> rw [hrec] at h
      · cases h
      · obtain rfl := Except.ok.inj h
        obtain ⟨rfl, hfacts⟩ := ih hrec
        refine ⟨rfl, ?_⟩
        intro kv hkv
        rcases List.mem_cons.mp hkv with rfl | hkv'
        · refine ⟨ra, hra, ht, ?_, ?_, hm1, hm2⟩
          · show la.nullCount = 0
            omega
          · show ra.nullCount = 0
            omega
        · exact hfacts kv hkv'

theorem checkKeysLoop_error {ltLen rtLen : Nat} {rks : List (String × PrimArray)} :
    ∀ {lks : List (String × PrimArray)} {e : PyErr},
    (∀ kv ∈ lks, kv.1 ∈ rks.map (fun p => p.1)) →
    checkKeysLoop ltLen rtLen rks lks = .error e →
    ∃ kv ∈ lks, ∃ ra, lookupArr rks kv.1 = some ra ∧
      ((kv.2.dtype ≠ ra.dtype ∧
        e = .typeError ("Left key " ++ kv.1 ++ " and right key " ++ kv.1 ++
          " must have the same type; left=" ++ kv.2.dtype.render ++
          ", right=" ++ ra.dtype.render)) ∨
       (0 < kv.2.nullCount ∧
        e = .valueError ("Left key " ++ kv.1 ++ " must not contain null values")) ∨
       (0 < ra.nullCount ∧
        e = .valueError ("Right key " ++ kv.1 ++ " must not contain null values")) ∨
       (kv.2.length ≠ ltLen ∧
        e = .valueError ("Left key " ++ kv.1 ++
          " must have the same length as the left table")) ∨
       (ra.length ≠ rtLen ∧
        e = .valueError ("Right key " ++ kv.1 ++
          " must have the same length as the right table"))) := by
  intro lks
  induction lks with
  | nil =>
    intro e _ h
    cases h
  | cons kv rest ih =>
    intro e hnames h
    obtain ⟨k, la⟩ := kv
    unfold checkKeysLoop at h
    have hkmem : k ∈ rks.map (fun p => p.1) :=
      hnames (k, la) (List.mem_cons_self _ _)
    obtain ⟨ra, hra⟩ := alistFind_isSome_of_mem_names hkmem
    rw [show lookupArr rks k = alistFind rks k from rfl, hra] at h
    dsimp only at h
    by_cases ht : la.dtype = ra.dtype
    case neg =>
      rw [if_pos (by simpa using ht)] at h
      refine ⟨(k, la), List.mem_cons_self _ _, ra, hra, Or.inl ⟨ht, ?_⟩⟩
      exact (Except.error.inj h).symm
    case pos =>
    rw [if_neg (by simpa using ht)] at h
    by_cases hn1 : la.nullCount > 0
    case pos =>
      rw [if_pos hn1] at h
      exact ⟨(k, la), List.mem_cons_self _ _, ra, hra,
        Or.inr (Or.inl ⟨hn1, (Except.error.inj h).symm⟩)⟩
    case neg =>
    rw [if_neg hn1] at h
    by_cases hn2 : ra.nullCount > 0
    case pos =>
      rw [if_pos hn2] at h
      exact ⟨(k, la), List.mem_cons_self _ _, ra, hra,
        Or.inr (Or.inr (Or.inl ⟨hn2, (Except.error.inj h).symm⟩))⟩
    case neg =>
    rw [if_neg hn2] at h
    by_cases hm1 : la.length = ltLen
    case neg =>
      rw [if_pos (by simpa using hm1)] at h
      exact ⟨(k, la), List.mem_cons_self _ _, ra, hra,
        Or.inr (Or.inr (Or.inr (Or.inl ⟨hm1, (Except.error.inj h).symm⟩)))⟩
    case pos =>
    rw [if_neg (by simpa using hm1)] at h
    by_cases hm2 : ra.length = rtLen
    case neg =>
      rw [if_pos (by simpa using hm2)] at h
      exact ⟨(k, la), List.mem_cons_self _ _, ra, hra,
        Or.inr (Or.inr (Or.inr (Or.inr ⟨hm2, (Except.error.inj h).symm⟩)))⟩
    case pos =>
    rw [if_neg (by simpa using hm2)] at h
    rcases hrec : checkKeysLoop ltLen rtLen rks rest with e' | ds' <;> rw [hrec] at h
    · have he : e' = e := Except.error.inj h
      obtain ⟨kv', hkv', hfacts⟩ := ih
        (fun kv hkv => hnames kv (List.mem_cons_of_mem _ hkv)) hrec
      exact ⟨kv', List.mem_cons_of_mem _ hkv', he ▸ hfacts⟩
    · cases h

/-! ## Struct-array synthesis lemmas -/

theorem PrimArray.items_eq_map_prims (a : PrimArray) (h : a.nullCount = 0) :
    a.items = a.prims.map some :=
  nullfree_items_eq a.items h

theorem PrimArray.prims_length (a : PrimArray) (h : a.nullCount = 0) :
    a.prims.length = a.length := by
  have := a.items_eq_map_prims h
  unfold PrimArray.length
  rw [this, List.length_map]

theorem getD_map_some {γ : Type} (l : List γ) (i : Nat) :
    (l.map some).getD i none = l[i]? := by
  rw [List.getD_eq_getElem?_getD, List.getElem?_map]
  rcases l[i]? with _ | x <;> rfl

theorem structRowFields_eq (keys : List (String × PrimArray)) (i : Nat) (d : Prim)
    (h : ∀ kv ∈ keys, kv.2.nullCount = 0 ∧ i < kv.2.prims.length) :
    structRowFields keys i =
      some (keys.map (fun kv => (kv.1, kv.2.prims.getD i d))) := by
  induction keys with
  | nil => rfl
  | cons kv rest ih =>
    obtain ⟨hn, hi⟩ := h kv (List.mem_cons_self kv rest)
    have hval : kv.2.items.getD i none = some (kv.2.prims.getD i d) := by
      rw [kv.2.items_eq_map_prims hn, getD_map_some, List.getElem?_eq_getElem hi,
        List.getD_eq_getElem kv.2.prims d hi]
    unfold structRowFields at *
    rw [List.mapM_cons, hval,
      ih (fun kv2 hkv2 => h kv2 (List.mem_cons_of_mem kv hkv2))]
    rfl

theorem buildStructArray_dtype (keys : List (String × PrimArray)) :
    (buildStructArray keys).dtype = .struct (keys.map (fun kv => (kv.1, kv.2.dtype))) := rfl

theorem buildStructArray_spec (keys : List (String × PrimArray)) (n : Nat)
    (hne : keys ≠ []) (hlen : ∀ kv ∈ keys, kv.2.length = n)
    (hnull : ∀ kv ∈ keys, kv.2.nullCount = 0) (d : Prim) :
    (buildStructArray keys).items = (List.range n).map
      (fun i => some (.struct (keys.map (fun kv => (kv.1, kv.2.prims.getD i d))))) ∧
    (buildStructArray keys).length = n ∧
    (buildStructArray keys).nullCount = 0 ∧
    (buildStructArray keys).scalars = (List.range n).map
      (fun i => Scalar.struct (keys.map (fun kv => (kv.1, kv.2.prims.getD i d)))) := by
  have hitems : (buildStructArray keys).items = (List.range n).map
      (fun i => some (.struct (keys.map (fun kv => (kv.1, kv.2.prims.getD i d))))) := by
    have hrange : (buildStructArray keys).items = (List.range n).map
        (fun i => (structRowFields keys i).map Scalar.struct) := by
      rcases keys with _ | ⟨kv0, rest⟩
      · exact absurd rfl hne
      · show (List.range kv0.2.items.length).map _ = _
        have h0 := hlen kv0 (List.mem_cons_self kv0 rest)
        unfold PrimArray.length at h0
        rw [h0]
    rw [hrange]
    refine List.map_congr_left ?_
    intro i hi
    have hi' : i < n := List.mem_range.mp hi
    rw [structRowFields_eq keys i d ?_]
    · rfl
    · intro kv hkv
      refine ⟨hnull kv hkv, ?_⟩
      rw [kv.2.prims_length (hnull kv hkv), hlen kv hkv]
      exact hi'
  refine ⟨hitems, ?_, ?_, ?_⟩
  · show (buildStructArray keys).items.length = n
    rw [hitems, List.length_map, List.length_range]
  · show ((buildStructArray keys).items.filter (fun o => o.isNone)).length = 0
    rw [hitems]
    rw [List.length_eq_zero, List.filter_eq_nil_iff]
    intro o ho
    obtain ⟨i, -, rfl⟩ := List.mem_map.mp ho
    simp
  · show (buildStructArray keys).items.filterMap id = _
    rw [hitems, List.filterMap_map]
    exact congrFun (List.filterMap_eq_map _) _

theorem multiKeyLinkage_init_ok {α β : Type} {lt : Table α} {rt : Table β}
    {lks rks : List (String × PrimArray)} {m : MultiKeyLinkage α β}
    (h : MultiKeyLinkage.init lt rt lks rks = .ok m) :
    sameNameSet (keyNames lks) (keyNames rks) = true ∧
    lks ≠ [] ∧
    m.dtypes = lks.map (fun kv => (kv.1, kv.2.dtype)) ∧
    m.scalar_type = .struct m.dtypes ∧
    Linkage.init lt rt (buildStructArray lks) (buildStructArray rks) =
      .ok m.toLinkage ∧
    (∀ kv ∈ lks, ∃ ra, lookupArr rks kv.1 = some ra ∧ kv.2.dtype = ra.dtype ∧
      kv.2.nullCount = 0 ∧ ra.nullCount = 0 ∧
      kv.2.length = lt.length ∧ ra.length = rt.length) := by
  unfold MultiKeyLinkage.init at h
  by_cases h1 : sameNameSet (keyNames lks) (keyNames rks) = true
  case neg =>
    rw [if_pos (by simpa using h1)] at h
    cases h
  case pos =>
  rw [if_neg (by simpa using h1)] at h
  by_cases h2 : lks.length = 0
  case pos =>
    rw [if_pos h2] at h
    cases h
  case neg =>
  rw [if_neg h2] at h
  rcases hds : checkKeysLoop lt.length rt.length rks lks with e | ds <;> rw [hds] at h
  · cases h
  · dsimp only at h
    rcases hbase : Linkage.init lt rt (buildStructArray lks) (buildStructArray rks)
      with e | base <;> rw [hbase] at h
    · cases h
    · obtain rfl := Except.ok.inj h
      obtain ⟨rfl, hfacts⟩ := checkKeysLoop_ok hds
      exact ⟨h1, fun hnil => h2 (by rw [hnil]; rfl), rfl, rfl, rfl, hfacts⟩

theorem dtypes_align : ∀ (lks rks : List (String × PrimArray)),
    (rks.map (fun kv => kv.1)).Nodup →
    lks.map (fun kv => kv.1) = rks.map (fun kv => kv.1) →
    (∀ kv ∈ lks, ∃ ra, lookupArr rks kv.1 = some ra ∧ kv.2.dtype = ra.dtype) →
    lks.map (fun kv => (kv.1, kv.2.dtype)) = rks.map (fun kv => (kv.1, kv.2.dtype)) := by
  intro lks
  induction lks with
  | nil =>
    intro rks _ hnames _
    have hrnil : rks = [] := List.map_eq_nil_iff.mp hnames.symm
    rw [hrnil]
  | cons lkv lrest ih =>
    intro rks hnd hnames hfacts
    rcases rks with _ | ⟨rkv, rrest⟩
    · simp at hnames
    · simp only [List.map_cons, List.cons.injEq] at hnames
      obtain ⟨hname0, hnames'⟩ := hnames
      simp only [List.map_cons, List.nodup_cons] at hnd
      obtain ⟨ra, hra, hdt⟩ := hfacts lkv (List.mem_cons_self _ _)
      have hra' : lookupArr (rkv :: rrest) lkv.1 = some rkv.2 := by
        show alistFind _ _ = _
        rw [alistFind_cons, if_pos hname0.symm]
      have hrae : ra = rkv.2 := Option.some_inj.mp (hra.symm.trans hra')
      simp only [List.map_cons, List.cons.injEq]
      refine ⟨Prod.ext hname0 (by rw [hdt, hrae]), ?_⟩
      refine ih rrest hnd.2 hnames' ?_
      intro kv hkv
      obtain ⟨ra2, hra2, hdt2⟩ := hfacts kv (List.mem_cons_of_mem _ hkv)
      have hkv1 : kv.1 ∈ rrest.map (fun kv => kv.1) := by
        rw [← hnames']
        exact List.mem_map.mpr ⟨kv, hkv, rfl⟩
      have hne : rkv.1 ≠ kv.1 := fun he => hnd.1 (he ▸ hkv1)
      refine ⟨ra2, ?_, hdt2⟩
      rw [show lookupArr (rkv :: rrest) kv.1 = alistFind (rkv :: rrest) kv.1 from rfl,
        alistFind_cons, if_neg hne] at hra2
      exact hra2

/-! ## Claim C7 -/

/-- Counterexample to C7 as stated: with the same key names supplied in
different orders on the two sides, construction succeeds, but the right
composite array is built in the right mapping's own field order, so its
struct type differs from `scalar_type`; the composite value of the (only)
matching row selects the left row yet an empty right table. -/
theorem C7_counterexample_field_order :
    MultiKeyLinkage.init cMLT cMRT [("a", cKA), ("b", cKB)] [("b", cKB), ("a", cKA)] =
      .ok cMKL ∧
    (buildStructArray [("a", cKA), ("b", cKB)]).dtype = cMKL.scalar_type ∧
    (buildStructArray [("b", cKB), ("a", cKA)]).dtype ≠ cMKL.scalar_type ∧
    (cMKL.selectLeftScalar (.struct [("a", .int32 1), ("b", .int64 10)])).rows = [7] ∧
    (cMKL.selectRightScalar (.struct [("a", .int32 1), ("b", .int64 10)])).rows = [] := by
  refine ⟨rfl, rfl, by decide, by decide, by decide⟩

/-- **C7 (amended).** For every successful Multi-Key Linkage construction
(with the right mapping's names unique, as Python dict keys are), the
composite type's field order is the `keyTypes` list taken from the LEFT
mapping's iteration order; the left composite array carries exactly that
struct type, and its row `i` zips the per-field values at row `i`; the
right composite array, however, is built with the RIGHT mapping's own
iteration order, so the two composite arrays carry identical struct types
exactly when the two mappings list the key names in the same order. -/
theorem C7_composite_field_order {α β : Type} (lt : Table α) (rt : Table β)
    (lks rks : List (String × PrimArray)) (m : MultiKeyLinkage α β)
    (hm : MultiKeyLinkage.init lt rt lks rks = .ok m)
    (hndr : (rks.map (fun kv => kv.1)).Nodup) :
    m.dtypes = lks.map (fun kv => (kv.1, kv.2.dtype)) ∧
    m.scalar_type = .struct (lks.map (fun kv => (kv.1, kv.2.dtype))) ∧
    (buildStructArray lks).dtype = m.scalar_type ∧
    (buildStructArray rks).dtype = .struct (rks.map (fun kv => (kv.1, kv.2.dtype))) ∧
    (∀ i : Nat, i < lt.length → ∀ d : Prim,
      structRowFields lks i = some (lks.map (fun kv => (kv.1, kv.2.prims.getD i d)))) ∧
    (keyNames lks = keyNames rks → (buildStructArray rks).dtype = m.scalar_type) := by
  obtain ⟨hns, hne, hdty, hsc, hbase, hfacts⟩ := multiKeyLinkage_init_ok hm
  have hsc' : m.scalar_type = .struct (lks.map (fun kv => (kv.1, kv.2.dtype))) := by
    rw [hsc, hdty]
  refine ⟨hdty, hsc', by rw [buildStructArray_dtype, hsc'], buildStructArray_dtype rks,
    ?_, ?_⟩
  · intro i hi d
    refine structRowFields_eq lks i d ?_
    intro kv hkv
    obtain ⟨ra, -, -, hnull, -, hlen, -⟩ := hfacts kv hkv
    refine ⟨hnull, ?_⟩
    rw [kv.2.prims_length hnull, hlen]
    exact hi
  · intro hord
    have halign := dtypes_align lks rks hndr hord
      (fun kv hkv => by
        obtain ⟨ra, hra, hdt, -⟩ := hfacts kv hkv
        exact ⟨ra, hra, hdt⟩)
    rw [buildStructArray_dtype, ← halign, hsc']

/-- Witness for the amended C7: with both mappings in the order `a, b`,
the two composite arrays share the composite type. -/
theorem C7_composite_field_order_witness :
    cMKL2.scalar_type = .struct [("a", .int32), ("b", .int64)] ∧
    (buildStructArray [("a", cKA), ("b", cKB)]).dtype = cMKL2.scalar_type := by
  have hm : MultiKeyLinkage.init cMLT cMRT [("a", cKA), ("b", cKB)]
      [("a", cKA), ("b", cKB)] = .ok cMKL2 := rfl
  have h := C7_composite_field_order cMLT cMRT [("a", cKA), ("b", cKB)]
    [("a", cKA), ("b", cKB)] cMKL2 hm (by decide)
  exact ⟨by rw [h.2.1]; decide, h.2.2.2.2.2 rfl⟩


/-! ## Claim C8 -/

theorem structFieldOf_error {kwargs : List (String × PyVal)} {ft : String × PrimType}
    {e : PyErr} (h : structFieldOf kwargs ft = .error e) :
    (∃ k, e = .keyError k) ∨ e = .valueError "invalid value for composite key field" := by
  unfold structFieldOf at h
  rcases hf : alistFind kwargs ft.1 with _ | v <;> rw [hf] at h
  · exact Or.inl ⟨ft.1, (Except.error.inj h).symm⟩
  · dsimp only at h
    rcases hc : castToPrim ft.2 v with _ | p <;> rw [hc] at h
    · exact Or.inr (Except.error.inj h).symm
    · cases h

theorem paScalarStructTyped_error {kwargs : List (String × PyVal)}
    {fields : List (String × PrimType)} {e : PyErr}
    (h : paScalarStructTyped kwargs fields = .error e) :
    (∃ k, e = .keyError k) ∨ e = .valueError "invalid value for composite key field" := by
  unfold paScalarStructTyped at h
  rcases hm : fields.mapM (structFieldOf kwargs) with e' | fs <;> rw [hm] at h
  · obtain ⟨ft, -, hft⟩ := exceptMapM_error (structFieldOf kwargs) fields e' hm
    have he : e' = e := Except.error.inj h
    exact he ▸ structFieldOf_error hft
  · cases h

theorem keysErr_ne_castErr (s : String) :
    ("Keys must match the linkage keys (" ++ s ++ ")") ≠
      "invalid value for composite key field" := by
  intro h
  have hd : (("Keys must match the linkage keys (" ++ s ++ ")").data).head? = some 'K' := by
    rw [String.data_append, String.data_append]
    rfl
  rw [h] at hd
  exact absurd hd (by decide)

theorem paScalarStructTyped_row (kwargs : List (String × PyVal))
    (lks : List (String × PrimArray)) (i : Nat) (d : Prim)
    (hvals : ∀ kv ∈ lks, ∃ v, alistFind kwargs kv.1 = some v ∧
      castToPrim kv.2.dtype v = some (kv.2.prims.getD i d)) :
    paScalarStructTyped kwargs (lks.map (fun kv => (kv.1, kv.2.dtype))) =
      .ok (.struct (lks.map (fun kv => (kv.1, kv.2.prims.getD i d)))) := by
  unfold paScalarStructTyped
  have hmapm : (lks.map (fun kv => (kv.1, kv.2.dtype))).mapM (structFieldOf kwargs) =
      .ok ((lks.map (fun kv => (kv.1, kv.2.dtype))).map
        (fun ft => (ft.1, ((alistFind kwargs ft.1).bind (castToPrim ft.2)).getD
          (Prim.int64 0)))) := by
    refine exceptMapM_ok _ _ _ ?_
    intro ft hft
    obtain ⟨kv, hkv, rfl⟩ := List.mem_map.mp hft
    obtain ⟨v, hv, hcast⟩ := hvals kv hkv
    unfold structFieldOf
    dsimp only
    rw [hv]
    dsimp only [Option.bind]
    rw [hcast]
    rfl
  rw [hmapm]
  have hXg : (lks.map (fun kv => (kv.1, kv.2.dtype))).map
      (fun ft => (ft.1, ((alistFind kwargs ft.1).bind (castToPrim ft.2)).getD
        (Prim.int64 0))) = lks.map (fun kv => (kv.1, kv.2.prims.getD i d)) := by
    rw [List.map_map]
    refine List.map_congr_left ?_
    intro kv hkv
    obtain ⟨v, hv, hcast⟩ := hvals kv hkv
    show (kv.1, ((alistFind kwargs kv.1).bind (castToPrim kv.2.dtype)).getD
      (Prim.int64 0)) = (kv.1, kv.2.prims.getD i d)
    rw [hv]
    dsimp only [Option.bind]
    rw [hcast]
    rfl
  rw [hXg]
  rfl

/-- **C8.** For every ready Multi-Key Linkage, `key(fieldValues)` fails
with the KeyNameMismatch `ValueError` if and only if the supplied name
set does not exactly equal `keyTypes`' name set; otherwise, when each
argument converts to its field's value at a row `i`, it returns exactly
the composite scalar synthesized for row `i` (field-wise equal, fields in
`keyTypes` order), and that scalar is usable with the selects: it looks
up a position list containing `i` in the left index. -/
theorem C8_key_name_check_and_value {α β : Type} (lt : Table α) (rt : Table β)
    (lks rks : List (String × PrimArray)) (m : MultiKeyLinkage α β)
    (hm : MultiKeyLinkage.init lt rt lks rks = .ok m) :
    (∀ kwargs : List (String × PyVal),
      (m.key kwargs = .error (.valueError
          ("Keys must match the linkage keys (" ++ renderNames m.dtypes ++ ")")) ↔
        sameNameSet (kwargs.map (fun kv => kv.1)) (m.dtypes.map (fun kv => kv.1)) = false)) ∧
    (∀ (kwargs : List (String × PyVal)) (i : Nat) (d : Prim),
      sameNameSet (kwargs.map (fun kv => kv.1)) (m.dtypes.map (fun kv => kv.1)) = true →
      (∀ kv ∈ lks, ∃ v, alistFind kwargs kv.1 = some v ∧
        castToPrim kv.2.dtype v = some (kv.2.prims.getD i d)) →
      i < lt.length →
      m.key kwargs = .ok (.struct (lks.map (fun kv => (kv.1, kv.2.prims.getD i d)))) ∧
      i ∈ (m.left_index.get (.struct (lks.map (fun kv =>
        (kv.1, kv.2.prims.getD i d))))).getD []) := by
  obtain ⟨hns, hnel, hdty, hsc, hbase, hfacts⟩ := multiKeyLinkage_init_ok hm
  constructor
  · intro kwargs
    unfold MultiKeyLinkage.key
    by_cases hsn : sameNameSet (kwargs.map (fun kv => kv.1))
        (m.dtypes.map (fun kv => kv.1)) = true
    · rw [if_neg (by simpa using hsn), hsc]
      have hred : (match DType.struct m.dtypes with
          | DType.struct fields => paScalarStructTyped kwargs fields
          | DType.prim _ => Except.error
              (PyErr.typeError "scalar type is not a struct type")) =
          paScalarStructTyped kwargs m.dtypes := rfl
      rw [hred]
      constructor
      · intro hres
        exfalso
        rcases paScalarStructTyped_error hres with ⟨k, hk⟩ | hcast
        · cases hk
        · exact keysErr_ne_castErr (renderNames m.dtypes) (PyErr.valueError.inj hcast)
      · intro hfalse
        rw [hsn] at hfalse
        cases hfalse
    · rw [if_pos (by simpa using hsn)]
      simp only [Bool.not_eq_true] at hsn
      simp [hsn]
  · intro kwargs i d hsn hvals hi
    have hkey : m.key kwargs =
        paScalarStructTyped kwargs (lks.map (fun kv => (kv.1, kv.2.dtype))) := by
      unfold MultiKeyLinkage.key
      rw [if_neg (by simpa using hsn), hsc, hdty]
    have hok := paScalarStructTyped_row kwargs lks i d hvals
    refine ⟨hkey.trans hok, ?_⟩
    obtain ⟨hn1, hn2, hl1, hl2, heq⟩ :=
      (linkage_init_ok_iff lt rt (buildStructArray lks) (buildStructArray rks)
        m.toLinkage).mp hbase
    have hLidx : m.toLinkage.left_index =
        .ofScalars (buildStructArray lks).scalars := by
      rw [heq]
    obtain ⟨-, -, -, hscal⟩ := buildStructArray_spec lks lt.length hnel
      (fun kv hkv => by
        obtain ⟨ra, -, -, -, -, hlen, -⟩ := hfacts kv hkv
        exact hlen)
      (fun kv hkv => by
        obtain ⟨ra, -, -, hnull, -, -, -⟩ := hfacts kv hkv
        exact hnull) d
    have hsj : (buildStructArray lks).scalars[i]? =
        some (.struct (lks.map (fun kv => (kv.1, kv.2.prims.getD i d)))) := by
      rw [hscal, List.getElem?_map, List.getElem?_range hi]
      rfl
    have hpos : i ∈ positionsOf (.struct (lks.map (fun kv =>
        (kv.1, kv.2.prims.getD i d)))) (buildStructArray lks).scalars :=
      (mem_positionsOf _ _ _).mpr hsj
    have hpne : positionsOf (.struct (lks.map (fun kv =>
        (kv.1, kv.2.prims.getD i d)))) (buildStructArray lks).scalars ≠ [] := by
      intro hcon
      rw [hcon] at hpos
      cases hpos
    show i ∈ (m.toLinkage.left_index.get _).getD []
    rw [hLidx, ofScalars_get, if_neg hpne]
    exact hpos

/-- Witness for C8: on `cMKL2`, `key(a=int32 1, b=10)` returns the row-0
composite scalar, which selects row 0 on the left. -/
theorem C8_key_name_check_and_value_witness :
    cMKL2.key cKwargs = .ok (.struct [("a", .int32 1), ("b", .int64 10)]) ∧
    0 ∈ (cMKL2.left_index.get (.struct [("a", .int32 1), ("b", .int64 10)])).getD [] := by
  have hm : MultiKeyLinkage.init cMLT cMRT [("a", cKA), ("b", cKB)]
      [("a", cKA), ("b", cKB)] = .ok cMKL2 := rfl
  have hvals : ∀ kv ∈ [("a", cKA), ("b", cKB)], ∃ v, alistFind cKwargs kv.1 = some v ∧
      castToPrim kv.2.dtype v = some (kv.2.prims.getD 0 (Prim.int64 0)) := by
    intro kv hkv
    rcases List.mem_cons.mp hkv with rfl | hkv2
    · exact ⟨.scalar (.prim (.int32 1)), by decide, by decide⟩
    · rcases List.mem_cons.mp hkv2 with rfl | hkv3
      · exact ⟨.pyInt 10, by decide, by decide⟩
      · simp at hkv3
  have h := (C8_key_name_check_and_value cMLT cMRT [("a", cKA), ("b", cKB)]
    [("a", cKA), ("b", cKB)] cMKL2 hm).2 cKwargs 0 (.int64 0) (by decide) hvals (by decide)
  have hrow : ([("a", cKA), ("b", cKB)].map
      (fun kv => (kv.1, kv.2.prims.getD 0 (Prim.int64 0)))) =
      [("a", Prim.int32 1), ("b", Prim.int64 10)] := by decide
  rw [hrow] at h
  exact h

/-! ## Claim C6: classification of the validation errors -/

theorem suffix_of_append_of_length_le {s a t : List Char}
    (h : s <:+ a ++ t) (hlen : s.length ≤ t.length) : s <:+ t := by
  rcases List.suffix_or_suffix_of_suffix h (List.suffix_append a t) with hst | hts
  · exact hst
  · have heq : t = s := hts.eq_of_length (by
      have := hts.length_le
      omega)
    rw [← heq]

theorem getLast?_eq_of_suffix {l₁ l₂ : List Char} (h : l₁ <:+ l₂) (hne : l₁ ≠ []) :
    l₂.getLast? = l₁.getLast? := by
  obtain ⟨u, rfl⟩ := h
  exact List.getLast?_append_of_ne_nil u hne

theorem classify_leftKeyNull (k : String) :
    classifyErr (.valueError ("Left key " ++ k ++ " must not contain null values")) =
      some .nullKeyValue := by
  have hc : (" must not contain null values").data <:+
      (("Left key " ++ k) ++ " must not contain null values").data := by
    rw [String.data_append]
    exact List.suffix_append _ _
  unfold classifyErr
  dsimp only
  rw [if_pos hc]

theorem classify_rightKeyNull (k : String) :
    classifyErr (.valueError ("Right key " ++ k ++ " must not contain null values")) =
      some .nullKeyValue := by
  have hc : (" must not contain null values").data <:+
      (("Right key " ++ k) ++ " must not contain null values").data := by
    rw [String.data_append]
    exact List.suffix_append _ _
  unfold classifyErr
  dsimp only
  rw [if_pos hc]

theorem classify_leftKeyLen (k : String) :
    classifyErr (.valueError ("Left key " ++ k ++
        " must have the same length as the left table")) =
      some .lengthMismatch := by
  have hc1 : ¬ (" must not contain null values").data <:+
      (("Left key " ++ k) ++ " must have the same length as the left table").data := by
    rw [String.data_append]
    intro h
    have := suffix_of_append_of_length_le h (by decide)
    exact absurd this (by decide)
  have hc2 : (" must have the same length as the left table").data <:+
      (("Left key " ++ k) ++ " must have the same length as the left table").data := by
    rw [String.data_append]
    exact List.suffix_append _ _
  unfold classifyErr
  dsimp only
  rw [if_neg hc1, if_pos hc2]

theorem classify_rightKeyLen (k : String) :
    classifyErr (.valueError ("Right key " ++ k ++
        " must have the same length as the right table")) =
      some .lengthMismatch := by
  have hc1 : ¬ (" must not contain null values").data <:+
      (("Right key " ++ k) ++ " must have the same length as the right table").data := by
    rw [String.data_append]
    intro h
    have := suffix_of_append_of_length_le h (by decide)
    exact absurd this (by decide)
  have hc2 : ¬ (" must have the same length as the left table").data <:+
      (("Right key " ++ k) ++ " must have the same length as the right table").data := by
    rw [String.data_append]
    intro h
    have := suffix_of_append_of_length_le h (by decide)
    exact absurd this (by decide)
  have hc3 : (" must have the same length as the right table").data <:+
      (("Right key " ++ k) ++ " must have the same length as the right table").data := by
    rw [String.data_append]
    exact List.suffix_append _ _
  unfold classifyErr
  dsimp only
  rw [if_neg hc1, if_neg hc2, if_pos hc3]

theorem classify_typeError (msg : String) :
    classifyErr (.typeError msg) = some .keyTypeMismatch := rfl

theorem classify_keysPre (s : String) :
    classifyErr (.valueError ("Keys must match the linkage keys (" ++ s ++ ")")) =
      some .keyNameMismatch := by
  have hlast : (("Keys must match the linkage keys (" ++ s ++ ")").data).getLast? =
      some ')' := by
    rw [String.data_append, String.data_append, List.append_assoc]
    rw [List.getLast?_append_of_ne_nil _ (by
      intro hc
      have := congrArg List.length hc
      simp at this)]
    rw [show (")").data = [')'] from rfl]
    exact List.getLast?_concat _
  have hc1 : ¬ (" must not contain null values").data <:+
      ("Keys must match the linkage keys (" ++ s ++ ")").data := by
    intro h
    have := (getLast?_eq_of_suffix h (by decide)).symm.trans hlast
    exact absurd this (by decide)
  have hc2 : ¬ (" must have the same length as the left table").data <:+
      ("Keys must match the linkage keys (" ++ s ++ ")").data := by
    intro h
    have := (getLast?_eq_of_suffix h (by decide)).symm.trans hlast
    exact absurd this (by decide)
  have hc3 : ¬ (" must have the same length as the right table").data <:+
      ("Keys must match the linkage keys (" ++ s ++ ")").data := by
    intro h
    have := (getLast?_eq_of_suffix h (by decide)).symm.trans hlast
    exact absurd this (by decide)
  have hc4 : ¬ ("Keys must match the linkage keys (" ++ s ++ ")") =
      "Left and right key dictionaries must have the same keys" := by
    intro h
    rw [h] at hlast
    exact absurd hlast (by decide)
  have hc5 : ¬ ("Keys must match the linkage keys (" ++ s ++ ")") =
      "Left and right key dictionaries must not be empty" := by
    intro h
    rw [h] at hlast
    exact absurd hlast (by decide)
  have hc6 : ("Keys must match the linkage keys (").data <+:
      ("Keys must match the linkage keys (" ++ s ++ ")").data := by
    rw [String.data_append, String.data_append, List.append_assoc]
    exact List.prefix_append _ _
  unfold classifyErr
  dsimp only
  rw [if_neg hc1, if_neg hc2, if_neg hc3, if_neg hc4, if_neg hc5, if_pos hc6]

theorem sameNameSet_iff (a b : List String) :
    sameNameSet a b = true ↔ ((∀ x ∈ a, x ∈ b) ∧ (∀ x ∈ b, x ∈ a)) := by
  unfold sameNameSet
  rw [Bool.and_eq_true, List.all_eq_true, List.all_eq_true]
  simp

theorem rks_entries_validated {α β : Type} {lt : Table α} {rt : Table β}
    {lks rks : List (String × PrimArray)}
    (hsn : sameNameSet (keyNames lks) (keyNames rks) = true)
    (hndr : (rks.map (fun kv => kv.1)).Nodup)
    (hfacts : ∀ kv ∈ lks, ∃ ra, lookupArr rks kv.1 = some ra ∧ kv.2.dtype = ra.dtype ∧
      kv.2.nullCount = 0 ∧ ra.nullCount = 0 ∧
      kv.2.length = lt.length ∧ ra.length = rt.length) :
    ∀ kv ∈ rks, kv.2.nullCount = 0 ∧ kv.2.length = rt.length := by
  intro kv hkv
  have hname : kv.1 ∈ keyNames lks := by
    refine ((sameNameSet_iff _ _).mp hsn).2 kv.1 ?_
    exact List.mem_map.mpr ⟨kv, hkv, rfl⟩
  obtain ⟨lkv, hlkv, hlk1⟩ := List.mem_map.mp hname
  obtain ⟨ra, hra, -, -, hranull, -, hralen⟩ := hfacts lkv hlkv
  have hra' : lookupArr rks lkv.1 = some kv.2 := by
    rw [hlk1]
    exact alistFind_eq_some_of_mem hndr hkv
  have : ra = kv.2 := Option.some_inj.mp (hra.symm.trans hra')
  rw [← this]
  exact ⟨hranull, hralen⟩

theorem rks_ne_nil {lks rks : List (String × PrimArray)}
    (hsn : sameNameSet (keyNames lks) (keyNames rks) = true)
    (hnel : lks ≠ []) : rks ≠ [] := by
  rcases lks with _ | ⟨kv0, rest⟩
  · exact absurd rfl hnel
  · intro hcon
    have := ((sameNameSet_iff _ _).mp hsn).1 kv0.1 (by
      exact List.mem_map.mpr ⟨kv0, List.mem_cons_self _ _, rfl⟩)
    rw [hcon] at this
    simp [keyNames] at this

theorem struct_sides_valid {α β : Type} {lt : Table α} {rt : Table β}
    {lks rks : List (String × PrimArray)}
    (hsn : sameNameSet (keyNames lks) (keyNames rks) = true)
    (hnel : lks ≠ [])
    (hndr : (rks.map (fun kv => kv.1)).Nodup)
    (hfacts : ∀ kv ∈ lks, ∃ ra, lookupArr rks kv.1 = some ra ∧ kv.2.dtype = ra.dtype ∧
      kv.2.nullCount = 0 ∧ ra.nullCount = 0 ∧
      kv.2.length = lt.length ∧ ra.length = rt.length) :
    (buildStructArray lks).nullCount = 0 ∧ (buildStructArray lks).length = lt.length ∧
    (buildStructArray rks).nullCount = 0 ∧ (buildStructArray rks).length = rt.length := by
  have hrv := rks_entries_validated hsn hndr hfacts
  obtain ⟨-, hllen, hlnull, -⟩ := buildStructArray_spec lks lt.length hnel
    (fun kv hkv => by
      obtain ⟨ra, -, -, -, -, hlen, -⟩ := hfacts kv hkv
      exact hlen)
    (fun kv hkv => by
      obtain ⟨ra, -, -, hnull, -, -, -⟩ := hfacts kv hkv
      exact hnull) (.int64 0)
  obtain ⟨-, hrlen, hrnull, -⟩ := buildStructArray_spec rks rt.length
    (rks_ne_nil hsn hnel)
    (fun kv hkv => (hrv kv hkv).2)
    (fun kv hkv => (hrv kv hkv).1) (.int64 0)
  exact ⟨hlnull, hllen, hrnull, hrlen⟩

theorem paScalarStructTyped_error_no_missing {kwargs : List (String × PyVal)}
    {fields : List (String × PrimType)} {e : PyErr}
    (hnames : ∀ ft ∈ fields, ft.1 ∈ kwargs.map (fun kv => kv.1))
    (h : paScalarStructTyped kwargs fields = .error e) :
    e = .valueError "invalid value for composite key field" := by
  unfold paScalarStructTyped at h
  rcases hm : fields.mapM (structFieldOf kwargs) with e' | fs <;> rw [hm] at h
  · obtain ⟨ft, hft, hferr⟩ := exceptMapM_error (structFieldOf kwargs) fields e' hm
    have he : e' = e := Except.error.inj h
    unfold structFieldOf at hferr
    obtain ⟨v, hv⟩ := alistFind_isSome_of_mem_names (hnames ft hft)
    rw [hv] at hferr
    dsimp only at hferr
    rcases hc : castToPrim ft.2 v with _ | p <;> rw [hc] at hferr
    · exact he ▸ (Except.error.inj hferr).symm
    · cases hferr
  · cases h

/-- **C6.** Every construction-time or `key()`-time validation failure of
`Linkage` and `MultiKeyLinkage` — NullKeyValue, LengthMismatch,
KeyTypeMismatch, KeyNameMismatch, EmptyKeySet — is reported immediately
as a distinct condition: the function `classifyErr` determines, from the
raised error alone, which of the five named violations occurred, and the
identified condition indeed holds of the inputs.  (`key()` can
additionally surface pyarrow's value-conversion failure, which is not one
of the five and classifies to `none`.) -/
theorem C6_errors_distinct_and_classified :
    (∀ (α β : Type) (lt : Table α) (rt : Table β) (lk rk : PArray) (e : PyErr),
      Linkage.init lt rt lk rk = .error e →
      (classifyErr e = some .nullKeyValue ∧
        (0 < lk.nullCount ∨ 0 < rk.nullCount)) ∨
      (classifyErr e = some .lengthMismatch ∧
        (lk.length ≠ lt.length ∨ rk.length ≠ rt.length))) ∧
    (∀ (α β : Type) (lt : Table α) (rt : Table β)
      (lks rks : List (String × PrimArray)) (e : PyErr),
      (rks.map (fun kv => kv.1)).Nodup →
      MultiKeyLinkage.init lt rt lks rks = .error e →
      (classifyErr e = some .keyNameMismatch ∧
        ¬ sameNameSet (keyNames lks) (keyNames rks) = true) ∨
      (classifyErr e = some .emptyKeySet ∧ lks = []) ∨
      (classifyErr e = some .keyTypeMismatch ∧
        ∃ kv ∈ lks, ∃ ra, lookupArr rks kv.1 = some ra ∧ kv.2.dtype ≠ ra.dtype) ∨
      (classifyErr e = some .nullKeyValue ∧
        ((∃ kv ∈ lks, 0 < kv.2.nullCount) ∨
         (∃ kv ∈ lks, ∃ ra, lookupArr rks kv.1 = some ra ∧ 0 < ra.nullCount))) ∨
      (classifyErr e = some .lengthMismatch ∧
        ((∃ kv ∈ lks, kv.2.length ≠ lt.length) ∨
         (∃ kv ∈ lks, ∃ ra, lookupArr rks kv.1 = some ra ∧ ra.length ≠ rt.length)))) ∧
    (∀ (α β : Type) (lt : Table α) (rt : Table β)
      (lks rks : List (String × PrimArray)) (m : MultiKeyLinkage α β)
      (kwargs : List (String × PyVal)) (e : PyErr),
      MultiKeyLinkage.init lt rt lks rks = .ok m →
      m.key kwargs = .error e →
      (classifyErr e = some .keyNameMismatch ∧
        ¬ sameNameSet (kwargs.map (fun kv => kv.1))
          (m.dtypes.map (fun kv => kv.1)) = true) ∨
      (e = .valueError "invalid value for composite key field" ∧
        classifyErr e = none)) := by
  refine ⟨?_, ?_, ?_⟩
  · intro α β lt rt lk rk e h
    rcases (linkage_init_error_iff lt rt lk rk e).mp h with
      ⟨hc, rfl⟩ | ⟨-, hc, rfl⟩ | ⟨-, -, hc, rfl⟩ | ⟨-, -, -, hc, rfl⟩
    · exact Or.inl ⟨by decide, Or.inl hc⟩
    · exact Or.inl ⟨by decide, Or.inr hc⟩
    · exact Or.inr ⟨by decide, Or.inl hc⟩
    · exact Or.inr ⟨by decide, Or.inr hc⟩
  · intro α β lt rt lks rks e hndr h
    unfold MultiKeyLinkage.init at h
    by_cases hsn : sameNameSet (keyNames lks) (keyNames rks) = true
    case neg =>
      rw [if_pos (by simpa using hsn)] at h
      refine Or.inl ⟨?_, hsn⟩
      rw [← Except.error.inj h]
      decide
    case pos =>
    rw [if_neg (by simpa using hsn)] at h
    by_cases hlen0 : lks.length = 0
    case pos =>
      rw [if_pos hlen0] at h
      refine Or.inr (Or.inl ⟨?_, List.length_eq_zero.mp hlen0⟩)
      rw [← Except.error.inj h]
      decide
    case neg =>
    rw [if_neg hlen0] at h
    rcases hds : checkKeysLoop lt.length rt.length rks lks with e' | ds <;> rw [hds] at h
    · have he : e' = e := Except.error.inj h
      have hnames : ∀ kv ∈ lks, kv.1 ∈ rks.map (fun p => p.1) := by
        intro kv hkv
        exact ((sameNameSet_iff _ _).mp hsn).1 kv.1
          (List.mem_map.mpr ⟨kv, hkv, rfl⟩)
      obtain ⟨kv, hkv, ra, hra, hcase⟩ := checkKeysLoop_error hnames hds
      rcases hcase with ⟨hcond, rfl⟩ | ⟨hcond, rfl⟩ | ⟨hcond, rfl⟩ | ⟨hcond, rfl⟩ | ⟨hcond, rfl⟩
      · exact Or.inr (Or.inr (Or.inl ⟨he ▸ classify_typeError _,
          kv, hkv, ra, hra, hcond⟩))
      · exact Or.inr (Or.inr (Or.inr (Or.inl ⟨he ▸ classify_leftKeyNull kv.1,
          Or.inl ⟨kv, hkv, hcond⟩⟩)))
      · exact Or.inr (Or.inr (Or.inr (Or.inl ⟨he ▸ classify_rightKeyNull kv.1,
          Or.inr ⟨kv, hkv, ra, hra, hcond⟩⟩)))
      · exact Or.inr (Or.inr (Or.inr (Or.inr ⟨he ▸ classify_leftKeyLen kv.1,
          Or.inl ⟨kv, hkv, hcond⟩⟩)))
      · exact Or.inr (Or.inr (Or.inr (Or.inr ⟨he ▸ classify_rightKeyLen kv.1,
          Or.inr ⟨kv, hkv, ra, hra, hcond⟩⟩)))
    · dsimp only at h
      rcases hbase : Linkage.init lt rt (buildStructArray lks) (buildStructArray rks)
        with e'' | base <;> rw [hbase] at h
      · exfalso
        obtain ⟨hlnull, hllen, hrnull, hrlen⟩ := struct_sides_valid hsn
          (fun hc => hlen0 (by rw [hc]; rfl)) hndr (checkKeysLoop_ok hds).2
        rcases (linkage_init_error_iff lt rt _ _ e'').mp hbase with
          ⟨hx, -⟩ | ⟨-, hx, -⟩ | ⟨-, -, hx, -⟩ | ⟨-, -, -, hx, -⟩
        · omega
        · omega
        · exact hx hllen
        · exact hx hrlen
      · cases h
  · intro α β lt rt lks rks m kwargs e hm hkeyerr
    obtain ⟨hns, hnel, hdty, hsc, hbase, hfacts⟩ := multiKeyLinkage_init_ok hm
    unfold MultiKeyLinkage.key at hkeyerr
    by_cases hsn : sameNameSet (kwargs.map (fun kv => kv.1))
        (m.dtypes.map (fun kv => kv.1)) = true
    case pos =>
      rw [if_neg (by simpa using hsn), hsc] at hkeyerr
      have hred : (match DType.struct m.dtypes with
          | DType.struct fields => paScalarStructTyped kwargs fields
          | DType.prim _ => Except.error
              (PyErr.typeError "scalar type is not a struct type")) =
          paScalarStructTyped kwargs m.dtypes := rfl
      rw [hred] at hkeyerr
      have hnames : ∀ ft ∈ m.dtypes, ft.1 ∈ kwargs.map (fun kv => kv.1) := by
        intro ft hft
        exact ((sameNameSet_iff _ _).mp hsn).2 ft.1
          (List.mem_map.mpr ⟨ft, hft, rfl⟩)
      have he := paScalarStructTyped_error_no_missing hnames hkeyerr
      refine Or.inr ⟨he, ?_⟩
      rw [he]
      decide
    case neg =>
      rw [if_pos (by simpa using hsn)] at hkeyerr
      refine Or.inl ⟨?_, hsn⟩
      rw [← Except.error.inj hkeyerr]
      exact classify_keysPre _

/-- Witness for C6: the null-key failure of the concrete linkage with a
null left key classifies as NullKeyValue, and the condition holds. -/
theorem C6_errors_distinct_and_classified_witness :
    (classifyErr (.valueError "Left keys must not contain null values") =
        some .nullKeyValue ∧
      (0 < cNullLK.nullCount ∨ 0 < cNullRK.nullCount)) ∨
    (classifyErr (.valueError "Left keys must not contain null values") =
        some .lengthMismatch ∧
      (cNullLK.length ≠ cNullLT.length ∨ cNullRK.length ≠ cNullRT.length)) :=
  C6_errors_distinct_and_classified.1 Int Int cNullLT cNullRT cNullLK cNullRK
    (.valueError "Left keys must not contain null values") rfl
